import Mathlib

/-!
# ApiHLTV: a shallow embedding of `scrapers/hltv.js` and `server.js`

The development models the JavaScript values that flow through the normaliser
(`normalizeList`), the three acquisition strategies and their orchestrator
(`fetchHLTVMatchesRaw`), and the cache refresh of the server (`updateCache`).

Modelling conventions:
* numbers are integers (JSON timestamps and identifiers); fractional numbers
  and `NaN` literals do not occur in the inputs considered; the text of an
  integer is its decimal digits up to 2^53 in magnitude and is supplied by the
  host beyond that;
* an object is an association list, the first binding of a key being the one
  that property access sees;
* only the property names read by the source are looked up
  (`live status date id matchId team1 team1Name team2 team2Name event result
  link name`); none of them lives on `Object.prototype`, `Array.prototype`,
  `Number.prototype` or `Boolean.prototype`, and `link` alone lives on
  `String.prototype`;
* raw records are JSON values, so the fields of an object are not callable; a
  function value arises only as `"text".link`;
* thrown values are `Error` objects, represented by their message;
* console output is not part of the trace of actions.
-/

namespace HLTV

/-! ## The host -/

/-- What the program needs from its host: the conversion of a string to a
number (`none` standing for `NaN`), the text of a number beyond 2^53 in
magnitude, and the reading `Date.now()` gives while the record at a given
position of the raw array is processed. -/
structure Host where
  stringToNumber : String → Option Int
  largeNumberText : Int → String
  now : Nat → Int

/-! ## JavaScript values -/

/-- The values a raw record can hold: the JSON values, `undefined` (what a
missing property reads as) and a built-in function object (what
`"text".link` reads as). -/
inductive JSVal where
  | undefined : JSVal
  | null : JSVal
  | bool (b : Bool) : JSVal
  | num (n : Int) : JSVal
  | str (s : String) : JSVal
  | arr (xs : List JSVal) : JSVal
  | obj (fields : List (String × JSVal)) : JSVal
  | fn (name : String) : JSVal

namespace JSVal

/-- The ECMAScript `ToBoolean` conversion. -/
def truthy : JSVal → Bool
  | undefined => false
  | null => false
  | bool b => b
  | num n => n != 0
  | str s => s != ""
  | arr _ => true
  | obj _ => true
  | fn _ => true

/-- The `a || b` operator on already evaluated operands. -/
def or (a b : JSVal) : JSVal := if a.truthy then a else b

/-- The test `v === 'text'` against a string literal. -/
def isStr (v : JSVal) (s : String) : Bool :=
  match v with
  | str t => t == s
  | _ => false

/-- Own-property test on the fields of an object. -/
def hasKey (fields : List (String × JSVal)) (k : String) : Bool :=
  (fields.lookup k).isSome

/-- Value of the property `k` of a value that is neither `null` nor
`undefined`, for the property names the source uses: an own field of an
object, `link` on a string (a `String.prototype` method), `name` on a
function, and `undefined` otherwise. -/
def prop (v : JSVal) (k : String) : JSVal :=
  match v with
  | obj fields => (fields.lookup k).getD undefined
  | str _ => if k == "link" then fn "link" else undefined
  | fn name => if k == "name" then str name else undefined
  | _ => undefined

/-- Property read `v.k`. Reading a property of `null` or `undefined` throws a
`TypeError`. -/
def getProp (v : JSVal) (k : String) : Except String JSVal :=
  match v with
  | undefined => .error "Cannot read properties of undefined"
  | null => .error "Cannot read properties of null"
  | w => .ok (prop w k)

/-- The test `Array.isArray(v)`. -/
def isArray : JSVal → Bool
  | arr _ => true
  | _ => false

mutual
/-- Whether the ECMAScript `ToString` conversion of a value throws. An object
converts through `Object.prototype.toString` unless it carries an own, hence
non-callable, `toString` property: then `toString` is passed over, `valueOf`
returns the object itself, and the conversion ends in a `TypeError`. An array
converts through `join`, which converts its elements. -/
def toStrRaises : JSVal → Bool
  | arr xs => anyRaises xs
  | obj fields => hasKey fields "toString"
  | _ => false
/-- Whether the conversion of some element of an array throws. -/
def anyRaises : List JSVal → Bool
  | [] => false
  | x :: rest => toStrRaises x || anyRaises rest
end

/-- The text `Number::toString` gives for an integer: its decimal digits up
to 2^53 in magnitude; beyond that the digits are the shortest that read back
as the same double, in exponent form from 1e21 on, and are left to the host
(`large`). -/
def numberText (large : Int → String) (n : Int) : String :=
  if n.natAbs ≤ 9007199254740992 then toString n else large n

mutual
/-- The text the `ToString` conversion yields when it does not throw (as
performed by a template literal). -/
def text (large : Int → String) : JSVal → String
  | undefined => "undefined"
  | null => "null"
  | bool b => if b then "true" else "false"
  | num n => numberText large n
  | str s => s
  | arr xs => joinElems large xs
  | obj _ => "[object Object]"
  | fn name => "function " ++ name ++ "() { [native code] }"
/-- The string `Array.prototype.join` builds with the separator `,`. -/
def joinElems (large : Int → String) : List JSVal → String
  | [] => ""
  | x :: rest =>
    match rest with
    | [] => elemText large x
    | _ :: _ => elemText large x ++ "," ++ joinElems large rest
/-- The text of one array element inside `join`: empty for `null` and
`undefined`. -/
def elemText (large : Int → String) : JSVal → String
  | undefined => ""
  | null => ""
  | bool b => if b then "true" else "false"
  | num n => numberText large n
  | str s => s
  | arr xs => joinElems large xs
  | obj _ => "[object Object]"
  | fn name => "function " ++ name ++ "() { [native code] }"
end

/-- The ECMAScript `ToString` conversion; `none` stands for the `TypeError`. -/
def toStr (H : Host) (v : JSVal) : Option String :=
  if v.toStrRaises then none else some (v.text H.largeNumberText)

/-- The ECMAScript `ToNumber` conversion, `none` standing for `NaN`. Objects,
arrays and functions convert through their string form (`valueOf` returns the
object itself, so `toString` decides). -/
def toNumber (H : Host) (v : JSVal) : Except String (Option Int) :=
  match v with
  | undefined => .ok none
  | null => .ok (some 0)
  | bool b => .ok (some (if b then 1 else 0))
  | num n => .ok (some n)
  | str s => .ok (H.stringToNumber s)
  | w =>
    match toStr H w with
    | some s => .ok (H.stringToNumber s)
    | none => .error "Cannot convert object to primitive value"

/-- The comparison `v < t` against a number `t`: false when `v` converts to
`NaN`. -/
def ltNum (H : Host) (v : JSVal) (t : Int) : Except String Bool :=
  match toNumber H v with
  | .ok (some n) => .ok (decide (n < t))
  | .ok none => .ok false
  | .error e => .error e

end JSVal

open JSVal

/-! ## The normaliser (`normalizeList`) -/

/-- The result of `normalizeList`: `{ live, upcoming, finished }`. -/
structure Snapshot where
  live : List JSVal
  upcoming : List JSVal
  finished : List JSVal

/-- The three empty lists the loop starts from. -/
def Snapshot.empty : Snapshot := ⟨[], [], []⟩

/-- The expression `m.status || (liveFlag ? 'live' : (m.date && m.date <
Date.now() ? 'finished' : 'upcoming'))`. -/
def resolveStatus (H : Host) (i : Nat) (m : JSVal) : Except String JSVal := do
  let liveFlag := (← getProp m "live").truthy
  let explicit ← getProp m "status"
  if explicit.truthy then pure explicit
  else if liveFlag then pure (str "live")
  else
    let date ← getProp m "date"
    if date.truthy then
      if (← ltNum H date (H.now i)) then pure (str "finished")
      else pure (str "upcoming")
    else pure (str "upcoming")

/-- The expression `(m.k && m.k.name) ? m.k.name : (m.k || fallback)`, which
resolves `team1`, `team2` and `event`. -/
def resolveNamed (m : JSVal) (k : String) (fallback : JSVal) : Except String JSVal := do
  let v ← getProp m k
  let nested ← if v.truthy then getProp v "name" else pure v
  if nested.truthy then getProp v "name" else pure (v.or fallback)

/-- The expression for `link`: the template literal when `m.id` is truthy,
else `m.link || null`. -/
def resolveLink (H : Host) (m : JSVal) : Except String JSVal := do
  let id ← getProp m "id"
  if id.truthy then
    match id.toStr H with
    | some s => pure (str ("https://www.hltv.org/matches/" ++ s))
    | none => throw "Cannot convert object to primitive value"
  else pure ((← getProp m "link").or null)

/-- The body of the `try` block up to the construction of `obj`: the resolved
status together with the canonical match. An error is the exception the
`catch` swallows. -/
def normalizeRecord (H : Host) (i : Nat) (m : JSVal) : Except String (JSVal × JSVal) := do
  let status ← resolveStatus H i m
  let id := (← getProp m "id").or ((← getProp m "matchId").or null)
  let team1 ← resolveNamed m "team1" ((← getProp m "team1Name").or (str "TBD"))
  let team2 ← resolveNamed m "team2" ((← getProp m "team2Name").or (str "TBD"))
  let event ← resolveNamed m "event" null
  let time := (← getProp m "date").or null
  let link ← resolveLink H m
  let score := (← getProp m "result").or null
  pure (status, obj [("id", id), ("team1", team1), ("team2", team2), ("event", event),
    ("time", time), ("status", status), ("link", link), ("score", score), ("raw", m)])

/-- The three-way `push` at the end of the `try` block. -/
def pushMatch (s : Snapshot) (status : JSVal) (o : JSVal) : Snapshot :=
  if status.isStr "live" then { s with live := s.live ++ [o] }
  else if status.isStr "finished" then { s with finished := s.finished ++ [o] }
  else { s with upcoming := s.upcoming ++ [o] }

/-- The `for ... of` loop, from the record at position `i` on. -/
def normalizeLoop (H : Host) : Nat → List JSVal → Snapshot → Snapshot
  | _, [], s => s
  | i, m :: rest, s =>
    match normalizeRecord H i m with
    | .ok (status, o) => normalizeLoop H (i + 1) rest (pushMatch s status o)
    | .error _ => normalizeLoop H (i + 1) rest s

/-- The function `normalizeList` applied to an array with the given elements
(`rawArray || []` is then the array itself). -/
def normalizeList (H : Host) (rawArray : List JSVal) : Snapshot :=
  normalizeLoop H 0 rawArray Snapshot.empty

/-- The property `Symbol.iterator` protocol of `for (const m of (rawArray ||
[]))`: the elements of an array, nothing for a falsy value, the characters of
a string, and a `TypeError` for any other value. -/
def elements (rawArray : JSVal) : Except String (List JSVal) :=
  match rawArray with
  | arr xs => .ok xs
  | str s => .ok (s.toList.map (fun c => str (String.singleton c)))
  | w => if w.truthy then .error "rawArray is not iterable" else .ok []

/-! ## Effects: outcomes and the trace of observable actions -/

/-- How an asynchronous computation ends: it returns, it throws an `Error`
with the given message, or its promise never settles. -/
inductive Outcome (α : Type) where
  | ret (a : α) : Outcome α
  | throw (msg : String) : Outcome α
  | hang : Outcome α

/-- The three acquisition strategies. -/
inductive Strategy where
  | direct
  | proxy
  | browser
  deriving DecidableEq, Repr

/-- The operations `tryPuppeteerScrape` performs on the automation library,
the page, the session files and the terminal. -/
inductive BrowserOp where
  | requirePuppeteer
  | launch
  | newPage
  | setUserAgent
  | setExtraHTTPHeaders
  | setDefaultNavigationTimeout
  | gotoBlank
  | loadSession
  | gotoMatches
  | readBodyText
  | awaitEnter
  | settle
  | saveSession
  | waitTimeout
  | extractMatches
  | writeDebug
  | close
  deriving DecidableEq, Repr

/-- Observable actions, in the order they happen: a strategy function is
entered, an HTTP request is issued, a browser operation is started. -/
inductive Event where
  | enter (s : Strategy) : Event
  | apiGet (cookie : Option String) : Event
  | pageGet : Event
  | proxyGet : Event
  | browser (op : BrowserOp) : Event
  deriving DecidableEq, Repr

/-- A computation with effects: its outcome and the actions it performed. -/
structure Eff (α : Type) where
  outcome : Outcome α
  events : List Event

namespace Eff

/-- Returning a value performs no action. -/
def unit {α : Type} (a : α) : Eff α := ⟨.ret a, []⟩

/-- Sequencing: the continuation runs only when the first part returns. -/
def andThen {α β : Type} (m : Eff α) (f : α → Eff β) : Eff β :=
  match m.outcome with
  | .ret a => ⟨(f a).outcome, m.events ++ (f a).events⟩
  | .throw e => ⟨.throw e, m.events⟩
  | .hang => ⟨.hang, m.events⟩

instance : Monad Eff where
  pure := unit
  bind := andThen

/-- Recording one action. -/
def emit (e : Event) : Eff Unit := ⟨.ret (), [e]⟩

/-- Throwing an `Error`. -/
def raise {α : Type} (msg : String) : Eff α := ⟨.throw msg, []⟩

/-- The statement `try { body } catch (err) { handler }`. -/
def tryCatch {α : Type} (body : Eff α) (handler : String → Eff α) : Eff α :=
  match body.outcome with
  | .throw e => ⟨(handler e).outcome, body.events ++ (handler e).events⟩
  | _ => body

end Eff

open Eff

/-! ## The environment of one refresh -/

/-- What `axios.get` resolves to under `validateStatus: null`: any status is a
response; `setCookie` is the header `set-cookie` when present. -/
structure HttpResponse where
  status : Nat
  data : JSVal
  setCookie : Option (List String)

/-- An HTTP request either rejects (network error, timeout) or resolves. -/
inductive HttpResult where
  | failure (msg : String) : HttpResult
  | response (r : HttpResponse) : HttpResult

/-- One entry of the array the in-page extraction returns. -/
structure ScrapedMatch where
  teams : List String
  time : String
  event : String
  link : String
  live : Bool

/-- Everything outside the program that one refresh depends on. -/
structure Env where
  /-- The constant `USE_PUPPETEER`. -/
  usePuppeteer : Bool
  /-- Answer to `GET HLTV_API` without a cookie. -/
  api : HttpResult
  /-- Answer to `GET https://www.hltv.org/matches`. -/
  page : HttpResult
  /-- Answer to `GET HLTV_API` with the given `Cookie` header. -/
  apiWithCookie : String → HttpResult
  /-- Answer to `GET PROXY_URL`. -/
  proxy : HttpResult
  /-- The browser operations that throw, with the message of the error. -/
  fails : BrowserOp → Option String
  /-- The text `page.evaluate` reads from the rendered document. -/
  bodyText : String
  /-- Whether a line ever arrives on standard input. -/
  enterPressed : Bool
  /-- The array the in-page extraction returns. -/
  scraped : List ScrapedMatch

/-! ## Strategy 1: `tryHltvApiWithCookies` -/

/-- An `await axios.get(...)`: the request is issued, then rejects or
resolves. -/
def httpGet (ev : Event) (r : HttpResult) : Eff HttpResponse :=
  (emit ev).andThen fun _ =>
    match r with
    | .failure msg => raise msg
    | .response resp => unit resp

/-- The expression `c.split(';')[0]`. -/
def cookiePair (c : String) : String :=
  String.mk (c.toList.takeWhile (fun ch => ch != ';'))

/-- The expression `setCookies.map(c => c.split(';')[0]).join('; ')`. -/
def cookieHeader (setCookies : List String) : String :=
  "; ".intercalate (setCookies.map cookiePair)

/-- The test `res.status === 200 && Array.isArray(res.data)`. -/
def isListResponse (res : HttpResponse) : Bool :=
  res.status == 200 && res.data.isArray

/-- The function `tryHltvApiWithCookies`. -/
def tryHltvApiWithCookies (E : Env) : Eff JSVal :=
  (emit (.enter .direct)).andThen fun _ =>
  tryCatch
    ((httpGet (.apiGet none) E.api).andThen fun res =>
      if isListResponse res then unit res.data
      else if res.status == 401 || res.status == 403 then
        (httpGet .pageGet E.page).andThen fun pageRes =>
          match pageRes.setCookie with
          | some (c :: cs) =>
            (httpGet (.apiGet (some (cookieHeader (c :: cs))))
                (E.apiWithCookie (cookieHeader (c :: cs)))).andThen fun res2 =>
              if isListResponse res2 then unit res2.data else unit null
          | _ => unit null
      else unit null)
    (fun _ => unit null)

/-! ## Strategy 2: `tryProxy` -/

/-- The function `tryProxy`. -/
def tryProxy (E : Env) : Eff JSVal :=
  (emit (.enter .proxy)).andThen fun _ =>
  tryCatch
    ((httpGet .proxyGet E.proxy).andThen fun res =>
      if isListResponse res then unit res.data else unit null)
    (fun _ => unit null)

/-! ## Strategy 3: `tryPuppeteerScrape` -/

/-- A browser operation that may throw. -/
def attempt (E : Env) (op : BrowserOp) : Eff Unit :=
  (emit (.browser op)).andThen fun _ =>
    match E.fails op with
    | some msg => raise msg
    | none => unit ()

/-- A browser operation whose failure is swallowed on the spot: `loadSession`
and `saveSession` (own `try/catch`), `page.goto(...).catch(()=>{})`, and the
write of the debug file (own `try/catch`). -/
def attemptQuietly (E : Env) (op : BrowserOp) : Eff Unit :=
  tryCatch (attempt E op) (fun _ => unit ())

/-- The wait `await new Promise(resolve => process.stdin.once('data', ...))`:
it settles only when a line arrives. -/
def awaitEnter (E : Env) : Eff Unit :=
  (emit (.browser .awaitEnter)).andThen fun _ =>
    if E.enterPressed then unit () else ⟨.hang, []⟩

/-- Whether `needle` occurs in `hay` as a contiguous block. -/
def occursIn (needle : List Char) : List Char → Bool
  | [] => needle.isEmpty
  | c :: cs => needle.isPrefixOf (c :: cs) || occursIn needle cs

/-- The test `bodyText && /checking your browser|just a moment|please enable
javascript/i.test(bodyText)`; the letters of the three phrases are ASCII, so
ignoring case is ignoring ASCII case. -/
def challengeDetected (bodyText : String) : Bool :=
  let text := bodyText.toList.map Char.toLower
  bodyText != "" &&
    (occursIn "checking your browser".toList text ||
     occursIn "just a moment".toList text ||
     occursIn "please enable javascript".toList text)

/-- The pieces `s.split('/')` cuts a text into; `cur` holds the piece being
read, most recent character first. -/
def splitSlash : List Char → List Char → List (List Char)
  | cur, [] => [cur.reverse]
  | cur, c :: cs => if c == '/' then cur.reverse :: splitSlash [] cs else splitSlash (c :: cur) cs

/-- The expression `m.link.split('/').filter(Boolean).pop()`. -/
def lastSegment (link : String) : JSVal :=
  match ((splitSlash [] link.toList).filter (fun seg => !seg.isEmpty)).getLast? with
  | some seg => str (String.mk seg)
  | none => undefined

/-- The scraped entry as a JavaScript object (the value of `raw: m`). -/
def ScrapedMatch.toJS (m : ScrapedMatch) : JSVal :=
  obj [("teams", arr (m.teams.map str)), ("time", str m.time), ("event", str m.event),
    ("link", str m.link), ("live", bool m.live)]

/-- The expression `m.teams[k] || 'TBD'`. -/
def teamAt (m : ScrapedMatch) (k : Nat) : JSVal :=
  match m.teams.get? k with
  | some t => (str t).or (str "TBD")
  | none => str "TBD"

/-- The record the final `matches.map(m => ({ ... }))` builds. -/
def scrapedRecord (m : ScrapedMatch) : JSVal :=
  obj [("id", if m.link != "" then lastSegment m.link else null),
    ("team1", teamAt m 0),
    ("team2", teamAt m 1),
    ("event", (str m.event).or (str "Evento")),
    ("time", (str m.time).or null),
    ("status", if m.live then str "live" else str "upcoming"),
    ("link", (str m.link).or null),
    ("raw", m.toJS)]

/-- The function `tryPuppeteerScrape`. -/
def tryPuppeteerScrape (E : Env) : Eff JSVal :=
  (emit (.enter .browser)).andThen fun _ =>
  if !E.usePuppeteer then unit null
  else
    tryCatch
      ((attempt E .requirePuppeteer).andThen fun _ =>
       (attempt E .launch).andThen fun _ =>
       (attempt E .newPage).andThen fun _ =>
       (attempt E .setUserAgent).andThen fun _ =>
       (attempt E .setExtraHTTPHeaders).andThen fun _ =>
       (attempt E .setDefaultNavigationTimeout).andThen fun _ =>
       (attempt E .gotoBlank).andThen fun _ =>
       (attemptQuietly E .loadSession).andThen fun _ =>
       (attemptQuietly E .gotoMatches).andThen fun _ =>
       (attempt E .readBodyText).andThen fun _ =>
       (if challengeDetected E.bodyText then
          (awaitEnter E).andThen fun _ =>
          (emit (.browser .settle)).andThen fun _ =>
          attemptQuietly E .saveSession
        else attemptQuietly E .saveSession).andThen fun _ =>
       (attempt E .waitTimeout).andThen fun _ =>
       (attempt E .extractMatches).andThen fun _ =>
       (attemptQuietly E .writeDebug).andThen fun _ =>
       (attempt E .close).andThen fun _ =>
       unit (arr (E.scraped.map scrapedRecord)))
      (fun _ => unit null)

/-! ## The orchestrator and the public entry point -/

/-- The function `fetchHLTVMatchesRaw`. -/
def fetchHLTVMatchesRaw (E : Env) : Eff JSVal :=
  (tryHltvApiWithCookies E).andThen fun direct =>
  if direct.isArray then unit direct
  else
    (tryProxy E).andThen fun proxy =>
    if proxy.isArray then unit proxy
    else
      (tryPuppeteerScrape E).andThen fun pupp =>
      if pupp.isArray then unit pupp
      else unit (arr [])

/-- The function `getAll`: `normalizeList(await fetchHLTVMatchesRaw())`. -/
def getAll (E : Env) (H : Host) : Eff Snapshot :=
  (fetchHLTVMatchesRaw E).andThen fun raw =>
    match elements raw with
    | .ok xs => unit (normalizeList H xs)
    | .error e => raise e

/-! ## The cache of `server.js` -/

/-- The module variables `cache` and `lastCacheTime`. -/
structure ServerState where
  cache : Snapshot
  lastCacheTime : Int

/-- The start state: `cache = { live: [], upcoming: [], finished: [] }`,
`lastCacheTime = 0`. -/
def ServerState.initial : ServerState := ⟨Snapshot.empty, 0⟩

/-- The body of `updateCache` around a given `getAll`: on return the three
lists and the time are assigned (`all.live || []` is `all.live`, a list being
truthy); an exception is caught and logged; while `getAll` is pending nothing
is assigned. The result is the state of the module together with the way the
call ends. -/
def updateCacheWith (getAllCall : Eff Snapshot) (now : Int) (st : ServerState) :
    ServerState × Eff Unit :=
  match getAllCall.outcome with
  | .ret all =>
    ({ cache := { live := all.live, upcoming := all.upcoming, finished := all.finished },
       lastCacheTime := now }, ⟨.ret (), getAllCall.events⟩)
  | .throw _ => (st, ⟨.ret (), getAllCall.events⟩)
  | .hang => (st, ⟨.hang, getAllCall.events⟩)

/-- The function `updateCache`, with the `getAll` of `scrapers/hltv.js`. -/
def updateCache (E : Env) (H : Host) (now : Int) (st : ServerState) : ServerState × Eff Unit :=
  updateCacheWith (getAll E H) now st

/-- The test `!cache.live.length && !cache.upcoming.length &&
!cache.finished.length` of the route `/api/cs2/all`. -/
def Snapshot.isEmpty (s : Snapshot) : Bool :=
  s.live.isEmpty && s.upcoming.isEmpty && s.finished.isEmpty

/-! ## Reading the result of the normaliser -/

/-- The records of a raw array that `normalizeRecord` accepts, in input order,
each as the pair of its resolved status and its canonical match; `i` is the
position of the first record. -/
def normalizedFrom (H : Host) (i : Nat) (rawArray : List JSVal) : List (JSVal × JSVal) :=
  (rawArray.enumFrom i).filterMap fun p => (normalizeRecord H p.1 p.2).toOption

/-- The accepted records of a whole raw array. -/
def normalized (H : Host) (rawArray : List JSVal) : List (JSVal × JSVal) :=
  normalizedFrom H 0 rawArray

/-- A canonical match: a value the loop body builds for some raw record. -/
def Canonical (c : JSVal) : Prop :=
  ∃ (H : Host) (i : Nat) (m st : JSVal), normalizeRecord H i m = .ok (st, c)

/-- Whether the `id` of a match can be put into a link again: it is falsy, or
it converts to text without raising. -/
def idConverts (c : JSVal) : Bool :=
  !(prop c "id").truthy || !(prop c "id").toStrRaises

/-- The three lists of a snapshot, one after the other. -/
def Snapshot.all (s : Snapshot) : List JSVal := s.live ++ s.upcoming ++ s.finished

/-! ## Reading the outcome and the trace of a computation -/

/-- The computation returns a value satisfying `Q`. -/
def Settles {α : Type} (Q : α → Prop) (m : Eff α) : Prop :=
  ∃ a, m.outcome = .ret a ∧ Q a

/-- The computation does not stay pending, and when it returns its value
satisfies `Q`; it may throw. -/
def Ends {α : Type} (Q : α → Prop) (m : Eff α) : Prop :=
  m.outcome ≠ .hang ∧ ∀ a, m.outcome = .ret a → Q a

/-- Every action of the computation satisfies `P`. -/
def EventsIn {α : Type} (P : Event → Prop) (m : Eff α) : Prop :=
  ∀ e ∈ m.events, P e

/-- The actions `tryHltvApiWithCookies` can perform. -/
def Event.isDirect : Event → Bool
  | .enter .direct => true
  | .apiGet _ => true
  | .pageGet => true
  | _ => false

/-- The actions `tryProxy` can perform. -/
def Event.isProxy : Event → Bool
  | .enter .proxy => true
  | .proxyGet => true
  | _ => false

/-- The actions `tryPuppeteerScrape` can perform. -/
def Event.isBrowser : Event → Bool
  | .enter .browser => true
  | .browser _ => true
  | _ => false

/-- What a strategy reports: `null` or a list. -/
def nullOrList (v : JSVal) : Prop := v = null ∨ ∃ xs, v = arr xs

/-! ## Sample inputs -/

/-- A host whose clock reads `t` at every position; string timestamps and
numbers beyond 2^53 do not occur in the samples, so the two conversions are
left empty. -/
def Host.fixed (t : Int) : Host := ⟨fun _ => none, fun _ => "", fun _ => t⟩

/-- A raw record with an explicit status outside the three partitions. -/
def postponedRecord : JSVal := obj [("status", str "postponed")]

/-- The canonical match of `postponedRecord`. -/
def postponedMatch : JSVal :=
  obj [("id", null), ("team1", str "TBD"), ("team2", str "TBD"), ("event", null),
    ("time", null), ("status", str "postponed"), ("link", null), ("score", null),
    ("raw", postponedRecord)]

/-- The raw record of scenario A of the specification. -/
def scenarioA : JSVal :=
  obj [("team1", obj [("name", str "Astralis")]), ("team2", obj [("name", str "NAVI")]),
    ("live", bool true), ("id", str "123")]

/-- The canonical match of `scenarioA`. -/
def scenarioAMatch : JSVal :=
  obj [("id", str "123"), ("team1", str "Astralis"), ("team2", str "NAVI"), ("event", null),
    ("time", null), ("status", str "live"), ("link", str "https://www.hltv.org/matches/123"),
    ("score", null), ("raw", scenarioA)]

/-- A raw record whose only timestamp is a `time` field in the past. -/
def pastTimeRecord : JSVal := obj [("time", num 1600000000000)]

/-- A raw record dated at the epoch: `date` and `time` are both `0`. -/
def epochRecord : JSVal := obj [("date", num 0), ("time", num 0)]

/-- A raw record with a `date` in the past and nothing else. -/
def pastDateRecord : JSVal := obj [("date", num 1600000000000)]

/-- A raw record identified through `matchId` only. -/
def matchIdRecord : JSVal := obj [("matchId", str "555")]

/-- A raw record whose `team1` is an object without a name. -/
def namelessTeamRecord : JSVal := obj [("team1", obj [("id", num 4608)])]

/-- A raw record without any team field. -/
def teamlessRecord : JSVal := obj [("event", str "Major")]

/-- A raw record whose `matchId` is an object with an own `toString` field. -/
def opaqueIdRecord : JSVal := obj [("matchId", obj [("toString", num 1)])]

/-- The match `normalizeList` builds when the canonical match of scenario A
is fed back as a raw record. -/
def scenarioARematch : JSVal :=
  obj [("id", str "123"), ("team1", str "Astralis"), ("team2", str "NAVI"), ("event", null),
    ("time", null), ("status", str "live"), ("link", str "https://www.hltv.org/matches/123"),
    ("score", null), ("raw", scenarioAMatch)]

/-- An environment in which no strategy applies: the API answers 403 and the
page sets no cookie, the mirror answers 404, and browser automation is
switched off. -/
def envNoData : Env :=
  { usePuppeteer := false
    api := .response ⟨403, null, none⟩
    page := .response ⟨200, str "<html></html>", none⟩
    apiWithCookie := fun _ => .response ⟨403, null, none⟩
    proxy := .response ⟨404, null, none⟩
    fails := fun _ => none
    bodyText := "Matches"
    enterPressed := false
    scraped := [] }

/-- An environment in which the API answers with a list at once. -/
def envDirectList : Env :=
  { envNoData with api := .response ⟨200, arr [scenarioA], none⟩ }

/-- An environment in which only the mirror answers with a list. -/
def envProxyList : Env :=
  { envNoData with proxy := .response ⟨200, arr [scenarioA], none⟩ }

/-- An environment in which the browser starts and the first in-page
evaluation throws. -/
def envEvaluateThrows : Env :=
  { envNoData with
    usePuppeteer := true
    fails := fun op =>
      if op = .readBodyText then some "Execution context was destroyed" else none }

/-- A cache that has been populated with the match of scenario A. -/
def populatedState : ServerState :=
  { cache := { live := [scenarioAMatch], upcoming := [], finished := [] }
    lastCacheTime := 1700000000000 }

/-- An environment in which the API first answers 403, the page sets two
cookies, and the API then answers with a list. -/
def envCookieRetry : Env :=
  { envNoData with
    page := .response ⟨200, str "<html></html>", some ["a=1; Path=/", "b=2; HttpOnly"]⟩
    apiWithCookie := fun c =>
      if c = "a=1; b=2" then .response ⟨200, arr [scenarioA], none⟩
      else .response ⟨403, null, none⟩ }

/-- A host that prints 10^21 the way JavaScript does. -/
def hostExponent : Host :=
  ⟨fun _ => none, fun n => if n = 1000000000000000000000 then "1e+21" else "",
    fun _ => 1700000000000⟩

/-- A raw record whose `id` is the number 10^21. -/
def largeIdRecord : JSVal := obj [("id", num 1000000000000000000000)]

/-! # Theorems -/

/-! ## Lemmas on values -/

theorem getProp_truthy {v : JSVal} (h : v.truthy = true) (k : String) :
    getProp v k = .ok (prop v k) := by
  cases v <;> simp [getProp, truthy] at h ⊢

theorem toStr_eq_none_iff (H : Host) (v : JSVal) :
    v.toStr H = none ↔ v.toStrRaises = true := by
  unfold toStr
  cases v.toStrRaises <;> simp

theorem toStr_of_not_raises (H : Host) {v : JSVal} (h : v.toStrRaises = false) :
    v.toStr H = some (v.text H.largeNumberText) := by
  unfold toStr
  rw [h]; rfl

theorem or_truthy_right (a b : JSVal) (h : b.truthy = true) : (a.or b).truthy = true := by
  unfold JSVal.or; split <;> assumption

theorem isStr_iff (v : JSVal) (s : String) : v.isStr s = true ↔ v = str s := by
  cases v <;> simp [isStr]

theorem isStr_live_not_finished {v : JSVal} (h : v.isStr "live" = true) :
    v.isStr "finished" = false := by
  rw [isStr_iff] at h
  subst h
  decide

/-! ## Lemmas on the loop of `normalizeList` -/

theorem normalizeLoop_eq (H : Host) (R : List JSVal) (i : Nat) (s : Snapshot) :
    normalizeLoop H i R s =
      { live := s.live ++ ((normalizedFrom H i R).filter fun p => p.1.isStr "live").map Prod.snd,
        upcoming := s.upcoming ++ ((normalizedFrom H i R).filter fun p =>
          !p.1.isStr "live" && !p.1.isStr "finished").map Prod.snd,
        finished := s.finished ++ ((normalizedFrom H i R).filter fun p =>
          p.1.isStr "finished").map Prod.snd } := by
  induction R generalizing i s with
  | nil => simp [normalizeLoop, normalizedFrom]
  | cons m rest ih =>
    have hN : normalizedFrom H i (m :: rest) =
        match normalizeRecord H i m with
        | .ok p => p :: normalizedFrom H (i + 1) rest
        | .error _ => normalizedFrom H (i + 1) rest := by
      unfold normalizedFrom
      cases h : normalizeRecord H i m <;> simp [List.enumFrom, List.filterMap_cons, Except.toOption, h]
    rw [hN]
    unfold normalizeLoop
    cases h : normalizeRecord H i m with
    | error e => simp only [ih]
    | ok p =>
      obtain ⟨st, o⟩ := p
      simp only [ih]
      by_cases h1 : st.isStr "live" = true
      · simp [pushMatch, h1, isStr_live_not_finished h1, List.filter_cons]
      · by_cases h2 : st.isStr "finished" = true
        · simp [pushMatch, h1, h2, List.filter_cons]
        · simp [pushMatch, h1, h2, List.filter_cons]

/-! ## Lemmas on one record -/

theorem normalizeRecord_getProp {H : Host} {i : Nat} {m : JSVal} {p : JSVal × JSVal}
    (h : normalizeRecord H i m = .ok p) (k : String) : getProp m k = .ok (prop m k) := by
  cases m <;> simp [normalizeRecord, resolveStatus, getProp, bind, Except.bind] at h ⊢

theorem resolveNamed_eq {m : JSVal} (hm : ∀ k, getProp m k = .ok (prop m k)) (k : String)
    (fallback : JSVal) :
    resolveNamed m k fallback =
      .ok (if (prop m k).truthy && (prop (prop m k) "name").truthy then prop (prop m k) "name"
           else (prop m k).or fallback) := by
  unfold resolveNamed
  simp only [hm, bind, Except.bind]
  by_cases h1 : (prop m k).truthy = true
  · simp only [h1, getProp_truthy h1, if_true, Bool.true_and]
    by_cases h2 : (prop (prop m k) "name").truthy = true
    · simp [h2, pure, Except.pure]
    · simp [h2, pure, Except.pure]
  · simp [h1, pure, Except.pure]

theorem normalizeRecord_ok {H : Host} {i : Nat} {m st c : JSVal}
    (h : normalizeRecord H i m = .ok (st, c)) :
    resolveStatus H i m = .ok st ∧ ∃ l, resolveLink H m = .ok l ∧
      c = obj [("id", (prop m "id").or ((prop m "matchId").or null)),
        ("team1", if (prop m "team1").truthy && (prop (prop m "team1") "name").truthy
          then prop (prop m "team1") "name"
          else (prop m "team1").or ((prop m "team1Name").or (str "TBD"))),
        ("team2", if (prop m "team2").truthy && (prop (prop m "team2") "name").truthy
          then prop (prop m "team2") "name"
          else (prop m "team2").or ((prop m "team2Name").or (str "TBD"))),
        ("event", if (prop m "event").truthy && (prop (prop m "event") "name").truthy
          then prop (prop m "event") "name"
          else (prop m "event").or null),
        ("time", (prop m "date").or null),
        ("status", st),
        ("link", l),
        ("score", (prop m "result").or null),
        ("raw", m)] := by
  have hm := normalizeRecord_getProp h
  unfold normalizeRecord at h
  simp only [hm, resolveNamed_eq hm, bind, Except.bind, pure, Except.pure] at h
  cases hs : resolveStatus H i m with
  | error e => simp [hs] at h
  | ok st2 =>
    cases hl : resolveLink H m with
    | error e => simp [hs, hl] at h
    | ok l =>
      simp only [hs, hl, Except.ok.injEq, Prod.mk.injEq] at h
      exact ⟨by rw [h.1], l, rfl, by rw [← h.2, h.1]⟩

theorem mem_normalizedFrom {H : Host} {R : List JSVal} {i : Nat} {p : JSVal × JSVal}
    (h : p ∈ normalizedFrom H i R) : ∃ j m, m ∈ R ∧ normalizeRecord H j m = .ok p := by
  unfold normalizedFrom at h
  rw [List.mem_filterMap] at h
  obtain ⟨⟨j, m⟩, hmem, hp⟩ := h
  refine ⟨j, m, ?_, ?_⟩
  · rw [(List.mem_enumFrom hmem).2.2]
    exact List.getElem_mem _
  cases hr : normalizeRecord H j m with
  | error e => simp [hr, Except.toOption] at hp
  | ok q => simp [hr, Except.toOption] at hp; rw [hp]

theorem resolveStatus_ok {H : Host} {i : Nat} {m st : JSVal}
    (hm : ∀ k, getProp m k = .ok (prop m k)) (h : resolveStatus H i m = .ok st) :
    ((prop m "status").truthy = true ∧ st = prop m "status") ∨
    ((prop m "status").truthy = false ∧
      (st = str "live" ∨ st = str "finished" ∨ st = str "upcoming")) := by
  unfold resolveStatus at h
  simp only [hm, bind, Except.bind, pure, Except.pure] at h
  cases h1 : (prop m "status").truthy with
  | true =>
    simp only [h1, if_true, Except.ok.injEq] at h
    exact Or.inl ⟨rfl, h.symm⟩
  | false =>
    right
    refine ⟨rfl, ?_⟩
    simp only [h1, Bool.false_eq_true, if_false] at h
    cases h2 : (prop m "live").truthy with
    | true =>
      simp only [h2, if_true, Except.ok.injEq] at h
      exact Or.inl h.symm
    | false =>
      simp only [h2, Bool.false_eq_true, if_false] at h
      cases h3 : (prop m "date").truthy with
      | true =>
        simp only [h3, if_true] at h
        cases hl : ltNum H (prop m "date") (H.now i) with
        | error e => simp [hl] at h
        | ok b =>
          cases b <;> simp [hl] at h
          · exact Or.inr (Or.inr h.symm)
          · exact Or.inr (Or.inl h.symm)
      | false =>
        simp only [h3, Bool.false_eq_true, if_false, Except.ok.injEq] at h
        exact Or.inr (Or.inr h.symm)

theorem mem_live_iff (H : Host) (R : List JSVal) (c : JSVal) :
    c ∈ (normalizeList H R).live ↔ (str "live", c) ∈ normalized H R := by
  unfold normalizeList normalized
  rw [normalizeLoop_eq]
  simp only [Snapshot.empty, List.nil_append, List.mem_map, List.mem_filter]
  constructor
  · rintro ⟨⟨st, o⟩, ⟨hmem, hst⟩, rfl⟩
    rw [isStr_iff] at hst
    simp only at hst
    rw [← hst]; exact hmem
  · intro h
    exact ⟨(str "live", c), ⟨h, rfl⟩, rfl⟩

theorem mem_finished_iff (H : Host) (R : List JSVal) (c : JSVal) :
    c ∈ (normalizeList H R).finished ↔ (str "finished", c) ∈ normalized H R := by
  unfold normalizeList normalized
  rw [normalizeLoop_eq]
  simp only [Snapshot.empty, List.nil_append, List.mem_map, List.mem_filter]
  constructor
  · rintro ⟨⟨st, o⟩, ⟨hmem, hst⟩, rfl⟩
    rw [isStr_iff] at hst
    simp only at hst
    rw [← hst]; exact hmem
  · intro h
    exact ⟨(str "finished", c), ⟨h, rfl⟩, rfl⟩

theorem mem_upcoming_iff (H : Host) (R : List JSVal) (c : JSVal) :
    c ∈ (normalizeList H R).upcoming ↔
      ∃ st, (st, c) ∈ normalized H R ∧ st.isStr "live" = false ∧ st.isStr "finished" = false := by
  unfold normalizeList normalized
  rw [normalizeLoop_eq]
  simp only [Snapshot.empty, List.nil_append, List.mem_map, List.mem_filter, Bool.and_eq_true,
    Bool.not_eq_true']
  constructor
  · rintro ⟨⟨st, o⟩, ⟨hmem, hst⟩, rfl⟩
    exact ⟨st, hmem, hst⟩
  · rintro ⟨st, hmem, hst⟩
    exact ⟨(st, c), ⟨hmem, hst⟩, rfl⟩

theorem mem_normalized {H : Host} {R : List JSVal} {p : JSVal × JSVal}
    (h : p ∈ normalized H R) : ∃ j m, m ∈ R ∧ normalizeRecord H j m = .ok p :=
  mem_normalizedFrom h

/-- What the fields of a canonical match read as. -/
theorem canonical_fields {H : Host} {i : Nat} {m st c : JSVal}
    (h : normalizeRecord H i m = .ok (st, c)) :
    prop c "status" = st ∧ prop c "raw" = m ∧
    prop c "id" = (prop m "id").or ((prop m "matchId").or null) ∧
    (∃ l, resolveLink H m = .ok l ∧ prop c "link" = l) ∧
    prop c "team1" = (if (prop m "team1").truthy && (prop (prop m "team1") "name").truthy
          then prop (prop m "team1") "name"
          else (prop m "team1").or ((prop m "team1Name").or (str "TBD"))) ∧
    prop c "team2" = (if (prop m "team2").truthy && (prop (prop m "team2") "name").truthy
          then prop (prop m "team2") "name"
          else (prop m "team2").or ((prop m "team2Name").or (str "TBD"))) := by
  obtain ⟨_, l, hl, hc⟩ := normalizeRecord_ok h
  subst hc
  exact ⟨rfl, rfl, rfl, ⟨l, hl, rfl⟩, rfl, rfl⟩

theorem status_truthy {H : Host} {i : Nat} {m st c : JSVal}
    (h : normalizeRecord H i m = .ok (st, c)) : st.truthy = true := by
  have hm := normalizeRecord_getProp h
  rcases resolveStatus_ok hm (normalizeRecord_ok h).1 with ⟨h1, h2⟩ | ⟨_, h2 | h2 | h2⟩
  · rw [h2]; exact h1
  all_goals (subst h2; decide)

/-! ## Claim C1 -/

/-- C1, counterexample: the raw record `{status: "postponed"}` yields a
canonical match whose status is `"postponed"`, a fourth value, so it is false
that every status in the output is one of `live`, `upcoming`, `finished`. -/
theorem status_fourth_value_reachable :
    ¬ ∀ c ∈ (normalizeList (Host.fixed 1700000000000) [postponedRecord]).live ++
          (normalizeList (Host.fixed 1700000000000) [postponedRecord]).upcoming ++
          (normalizeList (Host.fixed 1700000000000) [postponedRecord]).finished,
        prop c "status" = str "live" ∨ prop c "status" = str "upcoming" ∨
          prop c "status" = str "finished" := by
  intro h
  have hmem : postponedMatch ∈
      (normalizeList (Host.fixed 1700000000000) [postponedRecord]).live ++
        (normalizeList (Host.fixed 1700000000000) [postponedRecord]).upcoming ++
        (normalizeList (Host.fixed 1700000000000) [postponedRecord]).finished := by
    show postponedMatch ∈ [postponedMatch]
    exact List.mem_singleton.2 rfl
  have h2 := h postponedMatch hmem
  have e : prop postponedMatch "status" = str "postponed" := rfl
  rw [e] at h2
  simp at h2

/-- C1, amended: in the output of `normalizeList` every match of `live` has
status `"live"`, every match of `finished` has status `"finished"`, and every
match of `upcoming` has either status `"upcoming"` or the explicit truthy
status of its raw record, kept verbatim and different from `"live"` and
`"finished"`; the status is never falsy, hence never null. -/
theorem normalizeList_status_values (H : Host) (R : List JSVal) :
    (∀ c ∈ (normalizeList H R).live, prop c "status" = str "live") ∧
    (∀ c ∈ (normalizeList H R).finished, prop c "status" = str "finished") ∧
    (∀ c ∈ (normalizeList H R).upcoming,
      (prop c "status" = str "upcoming" ∨
        ((prop (prop c "raw") "status").truthy = true ∧
          prop c "status" = prop (prop c "raw") "status")) ∧
      prop c "status" ≠ str "live" ∧ prop c "status" ≠ str "finished") ∧
    (∀ c ∈ (normalizeList H R).live ++ (normalizeList H R).upcoming ++
        (normalizeList H R).finished,
      (prop c "status").truthy = true ∧ prop c "status" ≠ null ∧
        prop c "status" ≠ undefined) := by
  have key : ∀ st c, (st, c) ∈ normalized H R →
      prop c "status" = st ∧ st.truthy = true ∧
      (((prop (prop c "raw") "status").truthy = true ∧ st = prop (prop c "raw") "status") ∨
        (st = str "live" ∨ st = str "finished" ∨ st = str "upcoming")) := by
    intro st c hmem
    obtain ⟨j, m, _, hr⟩ := mem_normalized hmem
    have hf := canonical_fields hr
    refine ⟨hf.1, status_truthy hr, ?_⟩
    rw [hf.2.1]
    rcases resolveStatus_ok (normalizeRecord_getProp hr) (normalizeRecord_ok hr).1 with
      ⟨h1, h2⟩ | ⟨_, h2⟩
    · exact Or.inl ⟨h1, h2⟩
    · exact Or.inr h2
  refine ⟨?_, ?_, ?_, ?_⟩
  · intro c hc
    exact (key _ _ ((mem_live_iff H R c).1 hc)).1
  · intro c hc
    exact (key _ _ ((mem_finished_iff H R c).1 hc)).1
  · intro c hc
    obtain ⟨st, hmem, hl, hf⟩ := (mem_upcoming_iff H R c).1 hc
    obtain ⟨hs, _, hcase⟩ := key st c hmem
    rw [hs]
    refine ⟨?_, ?_, ?_⟩
    · rcases hcase with h | h | h | h
      · exact Or.inr h
      · subst h; simp [isStr] at hl
      · subst h; simp [isStr] at hf
      · exact Or.inl h
    · intro h; subst h; simp [isStr] at hl
    · intro h; subst h; simp [isStr] at hf
  · intro c hc
    have : ∃ st, (st, c) ∈ normalized H R := by
      simp only [List.mem_append] at hc
      rcases hc with (hc | hc) | hc
      · exact ⟨_, (mem_live_iff H R c).1 hc⟩
      · obtain ⟨st, hmem, _⟩ := (mem_upcoming_iff H R c).1 hc
        exact ⟨st, hmem⟩
      · exact ⟨_, (mem_finished_iff H R c).1 hc⟩
    obtain ⟨st, hmem⟩ := this
    obtain ⟨hs, ht, _⟩ := key st c hmem
    rw [hs]
    refine ⟨ht, ?_, ?_⟩ <;> (intro h; subst h; simp [truthy] at ht)

/-- C1, witness: the match of scenario A is in `live` and its status is
`"live"`. -/
theorem normalizeList_status_values_witness :
    scenarioAMatch ∈ (normalizeList (Host.fixed 1700000000000) [scenarioA]).live ∧
      prop scenarioAMatch "status" = str "live" :=
  ⟨List.mem_singleton.2 rfl,
    (normalizeList_status_values (Host.fixed 1700000000000) [scenarioA]).1 scenarioAMatch
      (List.mem_singleton.2 rfl)⟩

/-! ## Claim C7 -/

theorem three_way_perm (N : List (JSVal × JSVal)) :
    (N.filter (fun p => p.1.isStr "live") ++
      N.filter (fun p => !p.1.isStr "live" && !p.1.isStr "finished") ++
      N.filter (fun p => p.1.isStr "finished")).Perm N := by
  induction N with
  | nil => simp
  | cons x rest ih =>
    by_cases h1 : x.1.isStr "live" = true
    · simp only [List.filter_cons, h1, isStr_live_not_finished h1, Bool.not_true, Bool.false_and,
        Bool.false_eq_true, if_true, if_false, List.cons_append]
      exact ih.cons x
    · by_cases h2 : x.1.isStr "finished" = true
      · simp only [List.filter_cons, h1, h2, Bool.not_true, Bool.and_false,
          Bool.false_eq_true, if_true, if_false]
        exact List.perm_middle.trans (ih.cons x)
      · simp only [List.filter_cons, h1, h2, Bool.not_false, Bool.and_self,
          if_true, if_false, List.append_assoc, List.cons_append]
        refine List.perm_middle.trans ?_
        rw [← List.append_assoc]
        exact ih.cons x

theorem normalizedFrom_append (H : Host) (i : Nat) (R₁ R₂ : List JSVal) :
    normalizedFrom H i (R₁ ++ R₂) =
      normalizedFrom H i R₁ ++ normalizedFrom H (i + R₁.length) R₂ := by
  unfold normalizedFrom
  rw [List.enumFrom_append, List.filterMap_append]

theorem normalizeRecord_null (H : Host) (i : Nat) :
    (normalizeRecord H i null).toOption = none := rfl

theorem normalizeRecord_undefined (H : Host) (i : Nat) :
    (normalizeRecord H i undefined).toOption = none := rfl

/-- C7, counterexample: for the raw list `[{status: "postponed"}]` the list
`upcoming` holds one match, while no accepted record has the resolved status
`"upcoming"`; so `upcoming` is not the subsequence of the records that
resolved to that status. -/
theorem upcoming_not_status_subsequence :
    (normalizeList (Host.fixed 1700000000000) [postponedRecord]).upcoming ≠
      ((normalized (Host.fixed 1700000000000) [postponedRecord]).filter
        fun p => p.1.isStr "upcoming").map Prod.snd := by
  intro h
  have h2 : [postponedMatch] = ([] : List JSVal) := h
  simp at h2

/-- C7, amended: `live` and `finished` are the subsequences of the accepted
records whose resolved status is `"live"` and `"finished"`, and `upcoming` is
the subsequence of all other accepted records (status `"upcoming"` or any
other explicit value), each in input order; the accepted records are the
records on which the body of the loop does not raise, taken in input order;
the three lists together hold every accepted record exactly once; and a
`null` or `undefined` entry is skipped while the records before and after it
are processed as usual. -/
theorem normalizeList_stable_partition (H : Host) (R : List JSVal) :
    (normalizeList H R).live =
      ((normalized H R).filter fun p => p.1.isStr "live").map Prod.snd ∧
    (normalizeList H R).finished =
      ((normalized H R).filter fun p => p.1.isStr "finished").map Prod.snd ∧
    (normalizeList H R).upcoming =
      ((normalized H R).filter fun p =>
        !p.1.isStr "live" && !p.1.isStr "finished").map Prod.snd ∧
    normalized H R = R.enum.filterMap (fun p => (normalizeRecord H p.1 p.2).toOption) ∧
    ((normalizeList H R).live ++ (normalizeList H R).upcoming ++
      (normalizeList H R).finished).Perm ((normalized H R).map Prod.snd) ∧
    (normalizeList H R).live.length + (normalizeList H R).upcoming.length +
      (normalizeList H R).finished.length = (normalized H R).length ∧
    (∀ R₁ R₂ : List JSVal,
      normalized H (R₁ ++ null :: R₂) =
        normalized H R₁ ++ normalizedFrom H (R₁.length + 1) R₂ ∧
      normalized H (R₁ ++ undefined :: R₂) =
        normalized H R₁ ++ normalizedFrom H (R₁.length + 1) R₂) := by
  have hS : normalizeList H R = _ := normalizeLoop_eq H R 0 Snapshot.empty
  have hperm := three_way_perm (normalized H R)
  refine ⟨?_, ?_, ?_, rfl, ?_, ?_, ?_⟩
  · rw [hS]; simp [Snapshot.empty, normalized]
  · rw [hS]; simp [Snapshot.empty, normalized]
  · rw [hS]; simp [Snapshot.empty, normalized]
  · rw [hS]
    simp only [Snapshot.empty, List.nil_append, ← List.map_append]
    exact hperm.map Prod.snd
  · rw [hS]
    simp only [Snapshot.empty, List.nil_append, ← List.length_append, ← List.map_append,
      List.length_map]
    exact hperm.length_eq
  · intro R₁ R₂
    constructor
    · unfold normalized
      rw [normalizedFrom_append]
      simp [normalizedFrom, List.enumFrom, normalizeRecord_null]
    · unfold normalized
      rw [normalizedFrom_append]
      simp [normalizedFrom, List.enumFrom, normalizeRecord_undefined]

/-! ## Claim C3 -/

theorem normalizeRecord_of_ok {H : Host} {i : Nat} {m st l : JSVal}
    (hm : ∀ k, getProp m k = .ok (prop m k))
    (hs : resolveStatus H i m = .ok st) (hl : resolveLink H m = .ok l) :
    ∃ c, normalizeRecord H i m = .ok (st, c) := by
  unfold normalizeRecord
  simp only [hm, resolveNamed_eq hm, hs, hl, bind, Except.bind, pure, Except.pure]
  exact ⟨_, rfl⟩

theorem mem_normalized_of_getElem {H : Host} {R : List JSVal} {i : Nat} {m : JSVal}
    {p : JSVal × JSVal} (hrec : R[i]? = some m) (h : normalizeRecord H i m = .ok p) :
    p ∈ normalized H R := by
  unfold normalized normalizedFrom
  rw [List.mem_filterMap]
  refine ⟨(i, m), ?_, by simp [h, Except.toOption]⟩
  have := (List.mk_add_mem_enumFrom_iff_getElem? (n := 0) (i := i) (x := m) (l := R)).2 hrec
  simpa using this

theorem resolveLink_ok {m : JSVal} (hm : ∀ k, getProp m k = .ok (prop m k))
    (hid : (prop m "id").truthy = true → (prop m "id").toStr H ≠ none) :
    ∃ l, resolveLink H m = .ok l := by
  unfold resolveLink
  simp only [hm, bind, Except.bind, pure, Except.pure]
  cases h : (prop m "id").truthy with
  | false => exact ⟨_, rfl⟩
  | true =>
    cases hs : (prop m "id").toStr H with
    | none => exact absurd hs (hid h)
    | some s => exact ⟨_, rfl⟩

/-- C3, counterexample: with the clock at 1700000000000, a record whose only
timestamp is `time: 1600000000000` and a record with `date: 0, time: 0` (both
without `status` and `live`, both in the past) are given the status
`"upcoming"` and placed in `upcoming`; `finished` stays empty. -/
theorem past_time_not_finished :
    (normalizeList (Host.fixed 1700000000000) [pastTimeRecord]).finished = [] ∧
    (normalizeList (Host.fixed 1700000000000) [pastTimeRecord]).upcoming.map
      (fun c => prop c "status") = [str "upcoming"] ∧
    (normalizeList (Host.fixed 1700000000000) [epochRecord]).finished = [] ∧
    (normalizeList (Host.fixed 1700000000000) [epochRecord]).upcoming.map
      (fun c => prop c "status") = [str "upcoming"] :=
  ⟨rfl, rfl, rfl, rfl⟩

theorem normalizeRecord_status_error {H : Host} {i : Nat} {m : JSVal} {e : String}
    (hs : resolveStatus H i m = .error e) : (normalizeRecord H i m).toOption = none := by
  unfold normalizeRecord
  simp only [hs, bind, Except.bind]
  rfl

/-- C3, amended: the timestamp the normaliser reads is the field `date` (the
raw field `time` is not consulted) and a falsy `date`, `0` included, counts as
absent. For a raw object at position `i` with no `status` and no `live` field,
whose `id` is falsy or converts to text: if `date` is truthy and `date <
Date.now()` holds, the record is in `finished` with status `"finished"`; if
`date` is absent or falsy, or truthy and not less than the clock reading, the
record is in `upcoming` with status `"upcoming"`; if the comparison raises,
the record is skipped. The comparison is that of JavaScript: a number is
compared as it is, `true` as `1`, a string through its conversion to a number
(never less when that is `NaN`), an array or an object through the conversion
of its text, and it raises when that text cannot be produced. -/
theorem status_from_date (H : Host) (R : List JSVal) (i : Nat)
    (fields : List (String × JSVal)) (hrec : R[i]? = some (obj fields))
    (hstatus : fields.lookup "status" = none) (hlive : fields.lookup "live" = none)
    (hid : (prop (obj fields) "id").truthy = true → (prop (obj fields) "id").toStr H ≠ none) :
    (∀ n : Int, fields.lookup "date" = some (num n) → n ≠ 0 → n < H.now i →
      ∃ c ∈ (normalizeList H R).finished,
        prop c "raw" = obj fields ∧ prop c "status" = str "finished") ∧
    (∀ n : Int, fields.lookup "date" = some (num n) → (n = 0 ∨ H.now i ≤ n) →
      ∃ c ∈ (normalizeList H R).upcoming,
        prop c "raw" = obj fields ∧ prop c "status" = str "upcoming") ∧
    (fields.lookup "date" = none →
      ∃ c ∈ (normalizeList H R).upcoming,
        prop c "raw" = obj fields ∧ prop c "status" = str "upcoming") ∧
    ((prop (obj fields) "date").truthy = false →
      ∃ c ∈ (normalizeList H R).upcoming,
        prop c "raw" = obj fields ∧ prop c "status" = str "upcoming") ∧
    ((prop (obj fields) "date").truthy = true →
      ltNum H (prop (obj fields) "date") (H.now i) = .ok true →
      ∃ c ∈ (normalizeList H R).finished,
        prop c "raw" = obj fields ∧ prop c "status" = str "finished") ∧
    ((prop (obj fields) "date").truthy = true →
      ltNum H (prop (obj fields) "date") (H.now i) = .ok false →
      ∃ c ∈ (normalizeList H R).upcoming,
        prop c "raw" = obj fields ∧ prop c "status" = str "upcoming") ∧
    ((prop (obj fields) "date").truthy = true →
      ∀ e, ltNum H (prop (obj fields) "date") (H.now i) = .error e →
      (normalizeRecord H i (obj fields)).toOption = none) ∧
    ((∀ (n t : Int), ltNum H (num n) t = .ok (decide (n < t))) ∧
      (∀ t : Int, ltNum H (bool true) t = .ok (decide (1 < t))) ∧
      (∀ (s : String) (n t : Int), H.stringToNumber s = some n →
        ltNum H (str s) t = .ok (decide (n < t))) ∧
      (∀ (s : String) (t : Int), H.stringToNumber s = none →
        ltNum H (str s) t = .ok false) ∧
      (∀ (w : JSVal) (n t : Int), ((∃ xs, w = arr xs) ∨ (∃ fs, w = obj fs)) →
        w.toStrRaises = false → H.stringToNumber (w.text H.largeNumberText) = some n →
        ltNum H w t = .ok (decide (n < t))) ∧
      (∀ (w : JSVal) (t : Int), ((∃ xs, w = arr xs) ∨ (∃ fs, w = obj fs)) →
        w.toStrRaises = false → H.stringToNumber (w.text H.largeNumberText) = none →
        ltNum H w t = .ok false) ∧
      (∀ (w : JSVal) (t : Int), ((∃ xs, w = arr xs) ∨ (∃ fs, w = obj fs)) →
        w.toStrRaises = true →
        ltNum H w t = .error "Cannot convert object to primitive value")) := by
  have hm : ∀ k, getProp (obj fields) k = .ok (prop (obj fields) k) := fun k => rfl
  obtain ⟨l, hl⟩ := resolveLink_ok hm hid
  have place : ∀ st, resolveStatus H i (obj fields) = .ok st →
      ∃ c, (st, c) ∈ normalized H R ∧ prop c "raw" = obj fields ∧ prop c "status" = st := by
    intro st hs
    obtain ⟨c, hc⟩ := normalizeRecord_of_ok hm hs hl
    have hf := canonical_fields hc
    exact ⟨c, mem_normalized_of_getElem hrec hc, hf.2.1, hf.1⟩
  have hbase : ∀ d : JSVal, (fields.lookup "date").getD undefined = d →
      resolveStatus H i (obj fields) =
        if d.truthy then
          (match ltNum H d (H.now i) with
           | .ok b => if b then .ok (str "finished") else .ok (str "upcoming")
           | .error e => .error e)
        else .ok (str "upcoming") := by
    intro d hd
    have hps : prop (obj fields) "status" = undefined := by
      show (fields.lookup "status").getD undefined = undefined
      rw [hstatus]; rfl
    have hpl : prop (obj fields) "live" = undefined := by
      show (fields.lookup "live").getD undefined = undefined
      rw [hlive]; rfl
    have hpd : prop (obj fields) "date" = d := hd
    have hu : undefined.truthy = false := rfl
    unfold resolveStatus
    simp only [hm, hps, hpl, hpd, hu, bind, Except.bind, pure, Except.pure, Bool.false_eq_true,
      if_false]
    cases d.truthy with
    | false => rfl
    | true =>
      simp only [if_true]
      cases ltNum H d (H.now i) <;> rfl
  have inFinished : resolveStatus H i (obj fields) = .ok (str "finished") →
      ∃ c ∈ (normalizeList H R).finished,
        prop c "raw" = obj fields ∧ prop c "status" = str "finished" := by
    intro hs
    obtain ⟨c, hmem, hraw, hst⟩ := place _ hs
    exact ⟨c, (mem_finished_iff H R c).2 hmem, hraw, hst⟩
  have inUpcoming : resolveStatus H i (obj fields) = .ok (str "upcoming") →
      ∃ c ∈ (normalizeList H R).upcoming,
        prop c "raw" = obj fields ∧ prop c "status" = str "upcoming" := by
    intro hs
    obtain ⟨c, hmem, hraw, hst⟩ := place _ hs
    exact ⟨c, (mem_upcoming_iff H R c).2 ⟨_, hmem, rfl, rfl⟩, hraw, hst⟩
  have hdate := hbase (prop (obj fields) "date") rfl
  refine ⟨?_, ?_, ?_, ?_, ?_, ?_, ?_, ?_, ?_, ?_, ?_, ?_, ?_, ?_⟩
  · intro n hd hn hlt
    apply inFinished
    rw [hbase (num n) (by rw [hd]; rfl)]
    simp [truthy, hn, ltNum, toNumber, hlt]
  · intro n hd hn
    apply inUpcoming
    rw [hbase (num n) (by rw [hd]; rfl)]
    rcases hn with hn | hn
    · simp [truthy, hn]
    · by_cases h0 : n = 0
      · simp [truthy, h0]
      · simp [truthy, h0, ltNum, toNumber, not_lt.2 hn]
  · intro hd
    apply inUpcoming
    rw [hbase undefined (by rw [hd]; rfl)]
    simp [truthy]
  · intro ht
    apply inUpcoming
    rw [hdate, ht]
    rfl
  · intro ht hlt
    apply inFinished
    rw [hdate, ht, hlt]
    rfl
  · intro ht hlt
    apply inUpcoming
    rw [hdate, ht, hlt]
    rfl
  · intro ht e hlt
    apply normalizeRecord_status_error (e := e)
    rw [hdate, ht, hlt]
    rfl
  · intro n t
    rfl
  · intro t
    rfl
  · intro s n t hs
    simp [ltNum, toNumber, hs]
  · intro s t hs
    simp [ltNum, toNumber, hs]
  · rintro w n t (⟨xs, rfl⟩ | ⟨fs, rfl⟩) hr hs <;>
      simp [ltNum, toNumber, toStr, hr, hs]
  · rintro w t (⟨xs, rfl⟩ | ⟨fs, rfl⟩) hr hs <;>
      simp [ltNum, toNumber, toStr, hr, hs]
  · rintro w t (⟨xs, rfl⟩ | ⟨fs, rfl⟩) hr <;>
      simp [ltNum, toNumber, toStr, hr]

/-- C3, witness: a record dated 1600000000000 and read at 1700000000000 is in
`finished` with status `"finished"`. -/
theorem status_from_date_witness :
    ∃ c ∈ (normalizeList (Host.fixed 1700000000000) [pastDateRecord]).finished,
      prop c "raw" = pastDateRecord ∧ prop c "status" = str "finished" :=
  (status_from_date (Host.fixed 1700000000000) [pastDateRecord] 0
    [("date", num 1600000000000)] rfl rfl rfl (fun h => absurd h (by decide))).1
    1600000000000 rfl (by decide) (by decide)

/-! ## Claims C8 and C9 -/

theorem mem_output_iff (H : Host) (R : List JSVal) (c : JSVal) :
    c ∈ (normalizeList H R).live ++ (normalizeList H R).upcoming ++
        (normalizeList H R).finished ↔ ∃ st, (st, c) ∈ normalized H R := by
  have hS : normalizeList H R = _ := normalizeLoop_eq H R 0 Snapshot.empty
  have hperm := (three_way_perm (normalized H R)).map Prod.snd
  rw [hS]
  simp only [Snapshot.empty, List.nil_append, ← List.map_append]
  have hiff := hperm.mem_iff (a := c)
  unfold normalized at hiff ⊢
  rw [hiff]
  simp

theorem mem_output {H : Host} {R : List JSVal} {c : JSVal}
    (h : c ∈ (normalizeList H R).live ++ (normalizeList H R).upcoming ++
        (normalizeList H R).finished) :
    ∃ i st, normalizeRecord H i (prop c "raw") = .ok (st, c) := by
  obtain ⟨st, hmem⟩ := (mem_output_iff H R c).1 h
  obtain ⟨j, m, _, hr⟩ := mem_normalized hmem
  have hraw := (canonical_fields hr).2.1
  exact ⟨j, st, by rw [hraw]; exact hr⟩

theorem resolveLink_cases {m l : JSVal} (hm : ∀ k, getProp m k = .ok (prop m k))
    (h : resolveLink H m = .ok l) :
    ((prop m "id").truthy = true →
      ∃ s, (prop m "id").toStr H = some s ∧ l = str ("https://www.hltv.org/matches/" ++ s)) ∧
    ((prop m "id").truthy = false → l = (prop m "link").or null) := by
  unfold resolveLink at h
  simp only [hm, bind, Except.bind, pure, Except.pure] at h
  cases hid : (prop m "id").truthy with
  | false =>
    simp only [hid, Bool.false_eq_true, if_false, Except.ok.injEq] at h
    exact ⟨fun hc => absurd hc (by simp), fun _ => h.symm⟩
  | true =>
    simp only [hid, if_true] at h
    refine ⟨fun _ => ?_, fun hc => absurd hc (by simp)⟩
    cases hs : (prop m "id").toStr H with
    | none => simp [hs, throw, throwThe, MonadExceptOf.throw] at h
    | some s =>
      simp only [hs, Except.ok.injEq] at h
      exact ⟨s, rfl, h.symm⟩

/-- The link of a record whose `id` is 10^21 ends in `1e+21`, the text the
template literal gives for that number. -/
theorem large_id_link :
    (normalizeList hostExponent [largeIdRecord]).upcoming.map (fun c => prop c "link") =
      [str "https://www.hltv.org/matches/1e+21"] :=
  rfl

/-- C8, counterexample: the raw record `{matchId: "555"}` yields a canonical
match whose `id` is `"555"`, not null, and whose `link` is null, not a URL
built from that id. -/
theorem link_not_built_from_matchId :
    (normalizeList (Host.fixed 1700000000000) [matchIdRecord]).upcoming.map
      (fun c => (prop c "id", prop c "link")) = [(str "555", null)] :=
  rfl

/-- C8, amended: the link is keyed on the raw record's own `id` field. When
that field is truthy, the canonical `id` is that value and the link is
`https://www.hltv.org/matches/` followed by the text JavaScript gives for it:
the string itself, the decimal digits of a number up to 2^53 in magnitude,
the host's text of a larger number. When it is falsy, the link is the raw
record's `link` if truthy and null otherwise, also when the canonical `id` was
taken from `matchId`. Scenario A yields exactly one live match, with id
`"123"` and link `https://www.hltv.org/matches/123`. -/
theorem link_from_raw_id (H : Host) (R : List JSVal) (c : JSVal)
    (hc : c ∈ (normalizeList H R).live ++ (normalizeList H R).upcoming ++
        (normalizeList H R).finished) :
    ((prop (prop c "raw") "id").truthy = true →
      prop c "id" = prop (prop c "raw") "id" ∧
      ∃ s, (prop c "id").toStr H = some s ∧
        prop c "link" = str ("https://www.hltv.org/matches/" ++ s)) ∧
    ((prop (prop c "raw") "id").truthy = false →
      (prop (prop c "raw") "link").truthy = true →
      prop c "link" = prop (prop c "raw") "link") ∧
    ((prop (prop c "raw") "id").truthy = false →
      (prop (prop c "raw") "link").truthy = false → prop c "link" = null) ∧
    (∀ s : String, prop (prop c "raw") "id" = str s → s ≠ "" →
      prop c "link" = str ("https://www.hltv.org/matches/" ++ s)) ∧
    (∀ n : Int, prop (prop c "raw") "id" = num n → n ≠ 0 → n.natAbs ≤ 9007199254740992 →
      prop c "link" = str ("https://www.hltv.org/matches/" ++ toString n)) ∧
    (∀ n : Int, prop (prop c "raw") "id" = num n → 9007199254740992 < n.natAbs →
      prop c "link" = str ("https://www.hltv.org/matches/" ++ H.largeNumberText n)) ∧
    ((normalizeList H [scenarioA]).live = [scenarioAMatch] ∧
      (normalizeList H [scenarioA]).upcoming = [] ∧
      (normalizeList H [scenarioA]).finished = [] ∧
      prop scenarioAMatch "id" = str "123" ∧
      prop scenarioAMatch "link" = str "https://www.hltv.org/matches/123") := by
  obtain ⟨i, st, hr⟩ := mem_output hc
  have hm := normalizeRecord_getProp hr
  obtain ⟨_, _, hid, ⟨l, hl, hlink⟩, _, _⟩ := canonical_fields hr
  obtain ⟨h1, h2⟩ := resolveLink_cases hm hl
  refine ⟨?_, ?_, ?_, ?_, ?_, ?_, ⟨rfl, rfl, rfl, rfl, rfl⟩⟩
  · intro ht
    have e : prop c "id" = prop (prop c "raw") "id" := by
      rw [hid]; unfold JSVal.or; rw [ht]; rfl
    obtain ⟨s, hs, hls⟩ := h1 ht
    exact ⟨e, s, by rw [e]; exact hs, by rw [hlink, hls]⟩
  · intro hf ht
    rw [hlink, h2 hf]; unfold JSVal.or; rw [ht]; rfl
  · intro hf ht
    rw [hlink, h2 hf]; unfold JSVal.or; rw [ht]; rfl
  · intro s hs hne
    have ht : (prop (prop c "raw") "id").truthy = true := by
      rw [hs]; simp [truthy, hne]
    obtain ⟨s2, hs2, hls⟩ := h1 ht
    rw [hs] at hs2
    have e : s = s2 := Option.some.inj hs2
    rw [hlink, hls, e]
  · intro n hn hne hle
    have ht : (prop (prop c "raw") "id").truthy = true := by
      rw [hn]; simp [truthy, hne]
    obtain ⟨s2, hs2, hls⟩ := h1 ht
    rw [hn] at hs2
    have e : toString n = s2 := by
      have h3 : (num n).toStr H = some (toString n) := by
        simp [toStr, toStrRaises, text, numberText, hle]
      rw [h3] at hs2
      exact Option.some.inj hs2
    rw [hlink, hls, e]
  · intro n hn hlt
    have ht : (prop (prop c "raw") "id").truthy = true := by
      rw [hn]
      have h0 : n ≠ 0 := by
        intro h0; rw [h0] at hlt; simp at hlt
      simp [truthy, h0]
    obtain ⟨s2, hs2, hls⟩ := h1 ht
    rw [hn] at hs2
    have e : H.largeNumberText n = s2 := by
      have h3 : (num n).toStr H = some (H.largeNumberText n) := by
        simp [toStr, toStrRaises, text, numberText, not_le.2 hlt]
      rw [h3] at hs2
      exact Option.some.inj hs2
    rw [hlink, hls, e]

/-- C8, witness: the match of scenario A has a truthy raw `id`, so its link is
built from it. -/
theorem link_from_raw_id_witness :
    prop scenarioAMatch "id" = prop (prop scenarioAMatch "raw") "id" ∧
      ∃ s, (prop scenarioAMatch "id").toStr (Host.fixed 1700000000000) = some s ∧
        prop scenarioAMatch "link" = str ("https://www.hltv.org/matches/" ++ s) :=
  (link_from_raw_id (Host.fixed 1700000000000) [scenarioA] scenarioAMatch
    (List.mem_singleton.2 rfl)).1 (by decide)

/-- C9, counterexample: the raw record `{team1: {id: 4608}}` yields a
canonical match whose `team1` is the nested object itself, not a name
string. -/
theorem team_can_be_nested_object :
    (normalizeList (Host.fixed 1700000000000) [namelessTeamRecord]).upcoming.map
      (fun c => prop c "team1") = [obj [("id", num 4608)]] :=
  rfl

/-- C9, amended: the canonical `team1` is `team1.name` when `team1` and its
`name` are truthy, else `team1` itself when truthy (whatever its type, so
possibly a nested object without a name), else `team1Name` when truthy, else
`"TBD"`; likewise `team2`; the value is never falsy. Resolving the teams never
raises: a raw object at position `i` whose status and link resolve is in the
output, and it has `team1 = "TBD"` when it has neither `team1` nor
`team1Name`. -/
theorem team_resolution (H : Host) (R : List JSVal) :
    (∀ c ∈ (normalizeList H R).live ++ (normalizeList H R).upcoming ++
        (normalizeList H R).finished,
      prop c "team1" =
        (if (prop (prop c "raw") "team1").truthy &&
            (prop (prop (prop c "raw") "team1") "name").truthy
          then prop (prop (prop c "raw") "team1") "name"
          else if (prop (prop c "raw") "team1").truthy then prop (prop c "raw") "team1"
          else if (prop (prop c "raw") "team1Name").truthy then prop (prop c "raw") "team1Name"
          else str "TBD") ∧
      prop c "team2" =
        (if (prop (prop c "raw") "team2").truthy &&
            (prop (prop (prop c "raw") "team2") "name").truthy
          then prop (prop (prop c "raw") "team2") "name"
          else if (prop (prop c "raw") "team2").truthy then prop (prop c "raw") "team2"
          else if (prop (prop c "raw") "team2Name").truthy then prop (prop c "raw") "team2Name"
          else str "TBD") ∧
      (prop c "team1").truthy = true ∧ (prop c "team2").truthy = true) ∧
    (∀ (i : Nat) (fields : List (String × JSVal)) (st l : JSVal),
      R[i]? = some (obj fields) →
      resolveStatus H i (obj fields) = .ok st → resolveLink H (obj fields) = .ok l →
      ∃ c ∈ (normalizeList H R).live ++ (normalizeList H R).upcoming ++
          (normalizeList H R).finished,
        prop c "raw" = obj fields ∧
        (fields.lookup "team1" = none → fields.lookup "team1Name" = none →
          prop c "team1" = str "TBD")) := by
  have chain : ∀ a b : JSVal,
      (if a.truthy then a else if b.truthy then b else str "TBD") = a.or (b.or (str "TBD")) := by
    intro a b
    unfold JSVal.or
    cases a.truthy <;> cases b.truthy <;> rfl
  have chainT : ∀ a b : JSVal, (a.or (b.or (str "TBD"))).truthy = true := fun a b =>
    or_truthy_right _ _ (or_truthy_right _ _ rfl)
  constructor
  · intro c hc
    obtain ⟨i, st, hr⟩ := mem_output hc
    obtain ⟨_, _, _, _, ht1, ht2⟩ := canonical_fields hr
    rw [chain, chain]
    refine ⟨ht1, ht2, ?_, ?_⟩
    · rw [ht1]
      cases h : ((prop (prop c "raw") "team1").truthy &&
          (prop (prop (prop c "raw") "team1") "name").truthy) with
      | false => simp only [Bool.false_eq_true, if_false]; exact chainT _ _
      | true =>
        simp only [if_true]
        simp only [Bool.and_eq_true] at h
        exact h.2
    · rw [ht2]
      cases h : ((prop (prop c "raw") "team2").truthy &&
          (prop (prop (prop c "raw") "team2") "name").truthy) with
      | false => simp only [Bool.false_eq_true, if_false]; exact chainT _ _
      | true =>
        simp only [if_true]
        simp only [Bool.and_eq_true] at h
        exact h.2
  · intro i fields st l hrec hs hl
    have hm : ∀ k, getProp (obj fields) k = .ok (prop (obj fields) k) := fun k => rfl
    obtain ⟨c, hc⟩ := normalizeRecord_of_ok hm hs hl
    have hf := canonical_fields hc
    refine ⟨c, (mem_output_iff H R c).2 ⟨st, mem_normalized_of_getElem hrec hc⟩, hf.2.1, ?_⟩
    intro h1 h2
    have e1 : prop (obj fields) "team1" = undefined := by
      show (fields.lookup "team1").getD undefined = undefined
      rw [h1]; rfl
    have e2 : prop (obj fields) "team1Name" = undefined := by
      show (fields.lookup "team1Name").getD undefined = undefined
      rw [h2]; rfl
    rw [hf.2.2.2.2.1, e1, e2]
    rfl

/-- C9, witness: the match of scenario A resolves `team1` through the nested
name, and a record without team fields is kept with `team1 = "TBD"`. -/
theorem team_resolution_witness :
    prop scenarioAMatch "team1" = str "Astralis" ∧
    ∃ c ∈ (normalizeList (Host.fixed 1700000000000) [teamlessRecord]).live ++
          (normalizeList (Host.fixed 1700000000000) [teamlessRecord]).upcoming ++
          (normalizeList (Host.fixed 1700000000000) [teamlessRecord]).finished,
        prop c "raw" = teamlessRecord ∧ prop c "team1" = str "TBD" :=
  ⟨((team_resolution (Host.fixed 1700000000000) [scenarioA]).1 scenarioAMatch
      (List.mem_singleton.2 rfl)).1,
    by
      obtain ⟨c, hc, hraw, ht⟩ :=
        (team_resolution (Host.fixed 1700000000000) [teamlessRecord]).2 0
          [("event", str "Major")] (str "upcoming") null rfl rfl rfl
      exact ⟨c, hc, hraw, ht rfl rfl⟩⟩

/-! ## Claim C5 -/

theorem normalizedFrom_cons (H : Host) (i : Nat) (m : JSVal) (rest : List JSVal) :
    normalizedFrom H i (m :: rest) =
      match normalizeRecord H i m with
      | .ok p => p :: normalizedFrom H (i + 1) rest
      | .error _ => normalizedFrom H (i + 1) rest := by
  unfold normalizedFrom
  cases h : normalizeRecord H i m <;>
    simp [List.enumFrom, List.filterMap_cons, Except.toOption, h]

theorem resolveStatus_explicit {H : Host} {i : Nat} {m : JSVal}
    (hm : ∀ k, getProp m k = .ok (prop m k)) (h : (prop m "status").truthy = true) :
    resolveStatus H i m = .ok (prop m "status") := by
  unfold resolveStatus
  simp only [hm, bind, Except.bind, pure, Except.pure, h, if_true]

theorem normalizeRecord_link_error {H : Host} {i : Nat} {m : JSVal} {e : String}
    (hm : ∀ k, getProp m k = .ok (prop m k)) (hl : resolveLink H m = .error e) :
    (normalizeRecord H i m).toOption = none := by
  unfold normalizeRecord
  simp only [hm, resolveNamed_eq hm, hl, bind, Except.bind, pure, Except.pure]
  cases resolveStatus H i m <;> rfl

theorem canonical_getProp {c : JSVal} (hc : Canonical c) (k : String) :
    getProp c k = .ok (prop c k) := by
  obtain ⟨H, i, m, st, h⟩ := hc
  obtain ⟨_, l, _, hobj⟩ := normalizeRecord_ok h
  subst hobj
  rfl

theorem canonical_status_truthy {c : JSVal} (hc : Canonical c) :
    (prop c "status").truthy = true := by
  obtain ⟨H, i, m, st, h⟩ := hc
  rw [(canonical_fields h).1]
  exact status_truthy h

theorem renormalize {c : JSVal} (hc : Canonical c) (H : Host) (j : Nat) :
    (idConverts c = true →
      ∃ c2, normalizeRecord H j c = .ok (prop c "status", c2) ∧ prop c2 "raw" = c) ∧
    (idConverts c = false → (normalizeRecord H j c).toOption = none) := by
  have hm := canonical_getProp hc
  have hs : resolveStatus H j c = .ok (prop c "status") :=
    resolveStatus_explicit hm (canonical_status_truthy hc)
  constructor
  · intro hid
    have hid2 : (prop c "id").truthy = true → (prop c "id").toStr H ≠ none := by
      intro ht hn
      rw [toStr_eq_none_iff] at hn
      simp [idConverts, ht, hn] at hid
    obtain ⟨l, hl⟩ := resolveLink_ok hm hid2
    obtain ⟨c2, hc2⟩ := normalizeRecord_of_ok hm hs hl
    exact ⟨c2, hc2, (canonical_fields hc2).2.1⟩
  · intro hid
    have ht : (prop c "id").truthy = true := by
      cases h : (prop c "id").truthy
      · simp [idConverts, h] at hid
      · rfl
    have hn : (prop c "id").toStr H = none := by
      rw [toStr_eq_none_iff]
      cases h : (prop c "id").toStrRaises
      · simp [idConverts, h] at hid
      · rfl
    have hl : resolveLink H c = .error "Cannot convert object to primitive value" := by
      unfold resolveLink
      simp only [hm, bind, Except.bind, ht, if_true, hn]
      rfl
    exact normalizeRecord_link_error hm hl

theorem renormalized_list (H : Host) (L : List JSVal) (hL : ∀ c ∈ L, Canonical c) (j : Nat) :
    (normalizedFrom H j L).map (fun p => (p.1, prop p.2 "raw")) =
      (L.filter idConverts).map (fun c => (prop c "status", c)) := by
  induction L generalizing j with
  | nil => rfl
  | cons c rest ih =>
    have hrest := ih (fun x hx => hL x (List.mem_cons_of_mem _ hx)) (j + 1)
    obtain ⟨hyes, hno⟩ := renormalize (hL c (List.mem_cons_self _ _)) H j
    rw [normalizedFrom_cons]
    cases hid : idConverts c with
    | true =>
      obtain ⟨c2, hc2, hraw⟩ := hyes hid
      simp only [hc2, List.map_cons, List.filter_cons, hid, if_true, hrest, hraw]
    | false =>
      have hnone := hno hid
      cases hr : normalizeRecord H j c with
      | ok p => simp [hr, Except.toOption] at hnone
      | error e => simp only [List.filter_cons, hid, Bool.false_eq_true, if_false, hrest]

theorem filter_fst_map_raw (N : List (JSVal × JSVal)) (q : JSVal → Bool) :
    ((N.filter fun p => q p.1).map Prod.snd).map (fun c => prop c "raw") =
      (((N.map fun p => (p.1, prop p.2 "raw")).filter fun p => q p.1).map Prod.snd) := by
  induction N with
  | nil => rfl
  | cons x rest ih =>
    cases h : q x.1 <;> simp [List.filter_cons, h, ih]

theorem filter_status_map (L : List JSVal) (q : JSVal → Bool) :
    (((L.map fun c => (prop c "status", c)).filter fun p => q p.1).map Prod.snd) =
      L.filter (fun c => q (prop c "status")) := by
  induction L with
  | nil => rfl
  | cons x rest ih =>
    cases h : q (prop x "status") <;> simp [List.filter_cons, h, ih]

theorem renormalized_lists (H : Host) (L : List JSVal) (hL : ∀ c ∈ L, Canonical c) :
    (normalizeList H L).live.map (fun c => prop c "raw") =
      (L.filter idConverts).filter (fun c => (prop c "status").isStr "live") ∧
    (normalizeList H L).upcoming.map (fun c => prop c "raw") =
      (L.filter idConverts).filter (fun c =>
        !(prop c "status").isStr "live" && !(prop c "status").isStr "finished") ∧
    (normalizeList H L).finished.map (fun c => prop c "raw") =
      (L.filter idConverts).filter (fun c => (prop c "status").isStr "finished") := by
  have hS : normalizeList H L = _ := normalizeLoop_eq H L 0 Snapshot.empty
  have hN := renormalized_list H L hL 0
  rw [hS]
  simp only [Snapshot.empty, List.nil_append]
  refine ⟨?_, ?_, ?_⟩
  · rw [filter_fst_map_raw _ (fun s => s.isStr "live"), hN,
      filter_status_map _ (fun s => s.isStr "live")]
  · rw [filter_fst_map_raw _ (fun s => !s.isStr "live" && !s.isStr "finished"), hN,
      filter_status_map _ (fun s => !s.isStr "live" && !s.isStr "finished")]
  · rw [filter_fst_map_raw _ (fun s => s.isStr "finished"), hN,
      filter_status_map _ (fun s => s.isStr "finished")]

theorem output_canonical {H : Host} {R : List JSVal} {c : JSVal}
    (h : c ∈ (normalizeList H R).live ++ (normalizeList H R).upcoming ++
        (normalizeList H R).finished) : Canonical c := by
  obtain ⟨i, st, hr⟩ := mem_output h
  exact ⟨H, i, _, st, hr⟩

theorem status_of_mem {H : Host} {R : List JSVal} {st c : JSVal}
    (h : (st, c) ∈ normalized H R) : prop c "status" = st := by
  obtain ⟨j, m, _, hr⟩ := mem_normalized h
  exact (canonical_fields hr).1

theorem filter_filter_swap (L : List JSVal) (p q : JSVal → Bool) :
    (L.filter p).filter q = (L.filter q).filter p := by
  simp only [List.filter_filter]
  exact List.filter_congr fun x _ => Bool.and_comm _ _

theorem idConverts_false_iff {H : Host} {i : Nat} {m st c : JSVal}
    (h : normalizeRecord H i m = .ok (st, c)) :
    idConverts c = false ↔
      ((prop m "id").truthy = false ∧ (prop m "matchId").truthy = true ∧
        (prop m "matchId").toStrRaises = true) := by
  have hm := normalizeRecord_getProp h
  obtain ⟨_, _, hid, ⟨l, hl, _⟩, _, _⟩ := canonical_fields h
  obtain ⟨h1, _⟩ := resolveLink_cases hm hl
  unfold idConverts
  rw [hid]
  unfold JSVal.or
  cases ht : (prop m "id").truthy with
  | true =>
    obtain ⟨s, hs, _⟩ := h1 ht
    have hr : (prop m "id").toStrRaises = false := by
      cases hr : (prop m "id").toStrRaises
      · rfl
      · rw [(toStr_eq_none_iff H _).2 hr] at hs
        cases hs
    simp [ht, hr]
  | false =>
    cases ht2 : (prop m "matchId").truthy with
    | true =>
      cases hs : (prop m "matchId").toStrRaises <;> simp [ht2, hs]
    | false => simp [ht2, truthy, toStrRaises]

/-- C5, counterexample: the raw record `{matchId: {toString: 1}}` has no
`id`, so the first pass takes the canonical `id` from `matchId`, builds no
link text and places the match in `upcoming`. Fed back, the match has a truthy
`id`, the template literal converts it to text, and that conversion raises a
`TypeError` (the own `toString` is not callable and `valueOf` returns the
object); the `catch` skips the match, and the second pass returns three empty
lists. -/
theorem renormalize_drops_match :
    (normalizeList (Host.fixed 1700000000000) [opaqueIdRecord]).upcoming.length = 1 ∧
    (normalizeList (Host.fixed 1700000000000)
      (normalizeList (Host.fixed 1700000000000) [opaqueIdRecord]).all).all = [] ∧
    (normalizeList (Host.fixed 1700000000000)
      (normalizeList (Host.fixed 1700000000000) [opaqueIdRecord]).upcoming).all = [] :=
  ⟨rfl, rfl, rfl⟩

/-- C5, amended: let `S = normalizeList(R)`. Feeding `S.live ++ S.upcoming ++
S.finished` (or each list on its own) back into `normalizeList` places every
match whose `id` is falsy or converts to text in the partition it had in `S`,
in the same order, with its status unchanged; the other matches are dropped,
and these are exactly the matches whose raw record had a falsy `id` and a
truthy `matchId` that does not convert to text. -/
theorem renormalize_partition (H H2 : Host) (R : List JSVal) :
    ((normalizeList H2 (normalizeList H R).all).live.map (fun c => prop c "raw") =
        (normalizeList H R).live.filter idConverts ∧
      (normalizeList H2 (normalizeList H R).all).upcoming.map (fun c => prop c "raw") =
        (normalizeList H R).upcoming.filter idConverts ∧
      (normalizeList H2 (normalizeList H R).all).finished.map (fun c => prop c "raw") =
        (normalizeList H R).finished.filter idConverts) ∧
    (∀ c2 ∈ (normalizeList H2 (normalizeList H R).all).all,
      prop c2 "status" = prop (prop c2 "raw") "status") ∧
    ((normalizeList H2 (normalizeList H R).live).live.map (fun c => prop c "raw") =
        (normalizeList H R).live.filter idConverts ∧
      (normalizeList H2 (normalizeList H R).live).upcoming = [] ∧
      (normalizeList H2 (normalizeList H R).live).finished = []) ∧
    ((normalizeList H2 (normalizeList H R).upcoming).upcoming.map (fun c => prop c "raw") =
        (normalizeList H R).upcoming.filter idConverts ∧
      (normalizeList H2 (normalizeList H R).upcoming).live = [] ∧
      (normalizeList H2 (normalizeList H R).upcoming).finished = []) ∧
    ((normalizeList H2 (normalizeList H R).finished).finished.map (fun c => prop c "raw") =
        (normalizeList H R).finished.filter idConverts ∧
      (normalizeList H2 (normalizeList H R).finished).live = [] ∧
      (normalizeList H2 (normalizeList H R).finished).upcoming = []) ∧
    (∀ c ∈ (normalizeList H R).all,
      idConverts c = false ↔
        ((prop (prop c "raw") "id").truthy = false ∧
          (prop (prop c "raw") "matchId").truthy = true ∧
          (prop (prop c "raw") "matchId").toStr H = none)) := by
  have hlive : ∀ c ∈ (normalizeList H R).live, prop c "status" = str "live" :=
    fun c hc => status_of_mem ((mem_live_iff H R c).1 hc)
  have hfin : ∀ c ∈ (normalizeList H R).finished, prop c "status" = str "finished" :=
    fun c hc => status_of_mem ((mem_finished_iff H R c).1 hc)
  -- the status tests on the three lists of `S`
  have liveL : ∀ c ∈ (normalizeList H R).live, (prop c "status").isStr "live" = true :=
    fun c hc => (isStr_iff _ _).2 (hlive c hc)
  have finF : ∀ c ∈ (normalizeList H R).finished, (prop c "status").isStr "finished" = true :=
    fun c hc => (isStr_iff _ _).2 (hfin c hc)
  have finL : ∀ c ∈ (normalizeList H R).finished, (prop c "status").isStr "live" = false := by
    intro c hc; rw [hfin c hc]; rfl
  have liveF : ∀ c ∈ (normalizeList H R).live, (prop c "status").isStr "finished" = false := by
    intro c hc; rw [hlive c hc]; rfl
  have upL : ∀ c ∈ (normalizeList H R).upcoming, (prop c "status").isStr "live" = false := by
    intro c hc
    obtain ⟨st, hmem, hl, _⟩ := (mem_upcoming_iff H R c).1 hc
    rw [status_of_mem hmem]; exact hl
  have upF : ∀ c ∈ (normalizeList H R).upcoming, (prop c "status").isStr "finished" = false := by
    intro c hc
    obtain ⟨st, hmem, _, hf⟩ := (mem_upcoming_iff H R c).1 hc
    rw [status_of_mem hmem]; exact hf
  -- membership in the lists of `S` gives canonical matches
  have canL : ∀ c ∈ (normalizeList H R).live, Canonical c := fun c hc =>
    output_canonical (List.mem_append_left _ (List.mem_append_left _ hc))
  have canU : ∀ c ∈ (normalizeList H R).upcoming, Canonical c := fun c hc =>
    output_canonical (List.mem_append_left _ (List.mem_append_right _ hc))
  have canF : ∀ c ∈ (normalizeList H R).finished, Canonical c := fun c hc =>
    output_canonical (List.mem_append_right _ hc)
  have canAll : ∀ c ∈ (normalizeList H R).all, Canonical c := fun c hc => output_canonical hc
  -- the three filters on the lists of `S`
  have fLL : (normalizeList H R).live.filter (fun c => (prop c "status").isStr "live") =
      (normalizeList H R).live := List.filter_eq_self.2 liveL
  have fLU : (normalizeList H R).upcoming.filter (fun c => (prop c "status").isStr "live") =
      [] := List.filter_eq_nil_iff.2 fun c hc => by simp [upL c hc]
  have fLF : (normalizeList H R).finished.filter (fun c => (prop c "status").isStr "live") =
      [] := List.filter_eq_nil_iff.2 fun c hc => by simp [finL c hc]
  have fFL : (normalizeList H R).live.filter (fun c => (prop c "status").isStr "finished") =
      [] := List.filter_eq_nil_iff.2 fun c hc => by simp [liveF c hc]
  have fFU : (normalizeList H R).upcoming.filter (fun c => (prop c "status").isStr "finished") =
      [] := List.filter_eq_nil_iff.2 fun c hc => by simp [upF c hc]
  have fFF : (normalizeList H R).finished.filter (fun c => (prop c "status").isStr "finished") =
      (normalizeList H R).finished := List.filter_eq_self.2 finF
  have fUL : (normalizeList H R).live.filter (fun c =>
      !(prop c "status").isStr "live" && !(prop c "status").isStr "finished") = [] :=
    List.filter_eq_nil_iff.2 fun c hc => by simp [liveL c hc]
  have fUU : (normalizeList H R).upcoming.filter (fun c =>
      !(prop c "status").isStr "live" && !(prop c "status").isStr "finished") =
      (normalizeList H R).upcoming :=
    List.filter_eq_self.2 fun c hc => by simp [upL c hc, upF c hc]
  have fUF : (normalizeList H R).finished.filter (fun c =>
      !(prop c "status").isStr "live" && !(prop c "status").isStr "finished") = [] :=
    List.filter_eq_nil_iff.2 fun c hc => by simp [finF c hc]
  refine ⟨?_, ?_, ?_, ?_, ?_, ?_⟩
  · obtain ⟨a, b, d⟩ := renormalized_lists H2 (normalizeList H R).all canAll
    rw [a, b, d]
    simp only [filter_filter_swap _ idConverts, Snapshot.all, List.filter_append, fLL, fLU, fLF,
      fFL, fFU, fFF, fUL, fUU, fUF, List.append_nil, List.nil_append, List.filter_nil, and_self]
  · intro c2 hc2
    obtain ⟨st, hmem⟩ := (mem_output_iff H2 _ c2).1 hc2
    obtain ⟨j, m, hmL, hr⟩ := mem_normalized hmem
    obtain ⟨hst, hraw, _⟩ := canonical_fields hr
    rw [hst, hraw]
    have hcan := canAll m hmL
    have hs := resolveStatus_explicit (H := H2) (i := j) (canonical_getProp hcan)
      (canonical_status_truthy hcan)
    have hs2 := (normalizeRecord_ok hr).1
    rw [hs] at hs2
    exact (Except.ok.inj hs2).symm
  · obtain ⟨a, b, d⟩ := renormalized_lists H2 (normalizeList H R).live canL
    refine ⟨?_, ?_, ?_⟩
    · rw [a, filter_filter_swap, fLL]
    · rw [filter_filter_swap, fUL] at b
      simpa using b
    · rw [filter_filter_swap, fFL] at d
      simpa using d
  · obtain ⟨a, b, d⟩ := renormalized_lists H2 (normalizeList H R).upcoming canU
    refine ⟨?_, ?_, ?_⟩
    · rw [b, filter_filter_swap, fUU]
    · rw [filter_filter_swap, fLU] at a
      simpa using a
    · rw [filter_filter_swap, fFU] at d
      simpa using d
  · obtain ⟨a, b, d⟩ := renormalized_lists H2 (normalizeList H R).finished canF
    refine ⟨?_, ?_, ?_⟩
    · rw [d, filter_filter_swap, fFF]
    · rw [filter_filter_swap, fLF] at a
      simpa using a
    · rw [filter_filter_swap, fUF] at b
      simpa using b
  · intro c hc
    obtain ⟨i, st, hr⟩ := mem_output hc
    rw [toStr_eq_none_iff]
    exact idConverts_false_iff hr

/-- C5, witness: the canonical match of scenario A, fed back, is again a live
match and its status is the status it had. -/
theorem renormalize_partition_witness :
    scenarioARematch ∈ (normalizeList (Host.fixed 1700000000000)
        (normalizeList (Host.fixed 1700000000000) [scenarioA]).all).all ∧
      prop scenarioARematch "status" = prop (prop scenarioARematch "raw") "status" :=
  ⟨List.mem_singleton.2 rfl,
    (renormalize_partition (Host.fixed 1700000000000) (Host.fixed 1700000000000)
      [scenarioA]).2.1 scenarioARematch (List.mem_singleton.2 rfl)⟩

/-! ## Lemmas on computations -/

theorem andThen_ret {α β : Type} {m : Eff α} {a : α} (f : α → Eff β) (h : m.outcome = .ret a) :
    m.andThen f = ⟨(f a).outcome, m.events ++ (f a).events⟩ := by
  unfold Eff.andThen; rw [h]

theorem andThen_throw {α β : Type} {m : Eff α} {e : String} (f : α → Eff β)
    (h : m.outcome = .throw e) : m.andThen f = ⟨.throw e, m.events⟩ := by
  unfold Eff.andThen; rw [h]

theorem andThen_hang {α β : Type} {m : Eff α} (f : α → Eff β) (h : m.outcome = .hang) :
    m.andThen f = ⟨.hang, m.events⟩ := by
  unfold Eff.andThen; rw [h]

theorem settles_unit {α : Type} {Q : α → Prop} {a : α} (h : Q a) : Settles Q (unit a) :=
  ⟨a, rfl, h⟩

theorem Settles.ends {α : Type} {Q : α → Prop} {m : Eff α} (h : Settles Q m) : Ends Q m := by
  obtain ⟨a, ha, hq⟩ := h
  refine ⟨by rw [ha]; exact fun h => Outcome.noConfusion h, ?_⟩
  intro b hb
  rw [ha] at hb
  cases hb
  exact hq

theorem ends_unit {α : Type} {Q : α → Prop} {a : α} (h : Q a) : Ends Q (unit a) :=
  (settles_unit h).ends

theorem ends_raise {α : Type} (Q : α → Prop) (msg : String) : Ends Q (raise msg) :=
  ⟨fun h => Outcome.noConfusion h, fun _ h => Outcome.noConfusion h⟩

theorem settles_emit (e : Event) : Settles (fun _ => True) (emit e) := ⟨(), rfl, trivial⟩

theorem settles_andThen {α β : Type} {P : α → Prop} {Q : β → Prop} {m : Eff α}
    {f : α → Eff β} (hm : Settles P m) (hf : ∀ a, P a → Settles Q (f a)) :
    Settles Q (m.andThen f) := by
  obtain ⟨a, ha, hp⟩ := hm
  obtain ⟨b, hb, hq⟩ := hf a hp
  rw [andThen_ret f ha]
  exact ⟨b, hb, hq⟩

theorem ends_andThen {α β : Type} {P : α → Prop} {Q : β → Prop} {m : Eff α}
    {f : α → Eff β} (hm : Ends P m) (hf : ∀ a, P a → Ends Q (f a)) :
    Ends Q (m.andThen f) := by
  cases ho : m.outcome with
  | ret a =>
    rw [andThen_ret f ho]
    exact hf a (hm.2 a ho)
  | throw e =>
    rw [andThen_throw f ho]
    exact ⟨fun h => Outcome.noConfusion h, fun _ h => Outcome.noConfusion h⟩
  | hang => exact absurd ho hm.1

theorem settles_tryCatch {α : Type} {Q : α → Prop} {body : Eff α} {handler : String → Eff α}
    (hb : Ends Q body) (hh : ∀ e, Settles Q (handler e)) : Settles Q (tryCatch body handler) := by
  unfold Eff.tryCatch
  cases ho : body.outcome with
  | ret a => exact ⟨a, ho, hb.2 a ho⟩
  | throw e =>
    obtain ⟨b, hb2, hq⟩ := hh e
    exact ⟨b, hb2, hq⟩
  | hang => exact absurd ho hb.1

theorem eventsIn_unit {α : Type} (P : Event → Prop) (a : α) : EventsIn P (unit a) :=
  fun _ h => absurd h (List.not_mem_nil _)

theorem eventsIn_raise {α : Type} (P : Event → Prop) (msg : String) :
    EventsIn P (raise msg : Eff α) :=
  fun _ h => absurd h (List.not_mem_nil _)

theorem eventsIn_emit {P : Event → Prop} {e : Event} (h : P e) : EventsIn P (emit e) := by
  intro x hx
  rw [show (emit e).events = [e] from rfl, List.mem_singleton] at hx
  rw [hx]; exact h

theorem eventsIn_andThen {α β : Type} {P : Event → Prop} {m : Eff α} {f : α → Eff β}
    (hm : EventsIn P m) (hf : ∀ a, EventsIn P (f a)) : EventsIn P (m.andThen f) := by
  cases ho : m.outcome with
  | ret a =>
    rw [andThen_ret f ho]
    intro x hx
    rcases List.mem_append.1 hx with h | h
    · exact hm x h
    · exact hf a x h
  | throw e => rw [andThen_throw f ho]; exact hm
  | hang => rw [andThen_hang f ho]; exact hm

theorem eventsIn_tryCatch {α : Type} {P : Event → Prop} {body : Eff α}
    {handler : String → Eff α} (hb : EventsIn P body) (hh : ∀ e, EventsIn P (handler e)) :
    EventsIn P (tryCatch body handler) := by
  unfold Eff.tryCatch
  cases ho : body.outcome with
  | ret a => exact hb
  | throw e =>
    intro x hx
    rcases List.mem_append.1 hx with h | h
    · exact hb x h
    · exact hh e x h
  | hang => exact hb

theorem tryCatch_no_throw {α : Type} {body : Eff α} {handler : String → Eff α}
    (hh : ∀ e msg, (handler e).outcome ≠ .throw msg) (msg : String) :
    (tryCatch body handler).outcome ≠ .throw msg := by
  unfold Eff.tryCatch
  cases ho : body.outcome with
  | ret a => simp [ho]
  | throw e => exact hh e msg
  | hang => simp [ho]

theorem andThen_no_throw {α β : Type} {m : Eff α} {f : α → Eff β}
    (hm : ∀ msg, m.outcome ≠ .throw msg) (hf : ∀ a msg, (f a).outcome ≠ .throw msg)
    (msg : String) : (m.andThen f).outcome ≠ .throw msg := by
  cases ho : m.outcome with
  | ret a => rw [andThen_ret f ho]; exact hf a msg
  | throw e => exact absurd ho (hm e)
  | hang => rw [andThen_hang f ho]; exact fun h => Outcome.noConfusion h

/-! ## Lemmas on the three strategies -/

theorem isArray_iff (v : JSVal) : v.isArray = true ↔ ∃ xs, v = arr xs := by
  cases v <;> simp [isArray]

theorem httpGet_ends (ev : Event) (r : HttpResult) : Ends (fun _ => True) (httpGet ev r) := by
  unfold httpGet
  refine ends_andThen (settles_emit ev).ends fun _ _ => ?_
  cases r with
  | failure msg => exact ends_raise _ msg
  | response resp => exact ends_unit trivial

theorem httpGet_events {P : Event → Prop} {ev : Event} (h : P ev) (r : HttpResult) :
    EventsIn P (httpGet ev r) := by
  unfold httpGet
  refine eventsIn_andThen (eventsIn_emit h) fun _ => ?_
  cases r with
  | failure msg => exact eventsIn_raise _ msg
  | response resp => exact eventsIn_unit _ _

theorem listResponse_ends (res : HttpResponse) :
    Ends nullOrList (if isListResponse res then unit res.data else unit null) := by
  cases h : isListResponse res with
  | true =>
    simp only [if_true]
    simp only [isListResponse, Bool.and_eq_true] at h
    exact ends_unit (Or.inr ((isArray_iff _).1 h.2))
  | false =>
    simp only [Bool.false_eq_true, if_false]
    exact ends_unit (Or.inl rfl)

theorem direct_settles (E : Env) : Settles nullOrList (tryHltvApiWithCookies E) := by
  unfold tryHltvApiWithCookies
  refine settles_andThen (settles_emit _) fun _ _ => ?_
  refine settles_tryCatch ?_ fun _ => settles_unit (Or.inl rfl)
  refine ends_andThen (httpGet_ends _ _) fun res _ => ?_
  cases h : isListResponse res with
  | true =>
    simp only [if_true]
    simp only [isListResponse, Bool.and_eq_true] at h
    exact ends_unit (Or.inr ((isArray_iff _).1 h.2))
  | false =>
    simp only [Bool.false_eq_true, if_false]
    split
    · refine ends_andThen (httpGet_ends _ _) fun pageRes _ => ?_
      split
      · exact ends_andThen (httpGet_ends _ _) fun res2 _ => listResponse_ends res2
      · exact ends_unit (Or.inl rfl)
    · exact ends_unit (Or.inl rfl)

theorem direct_events (E : Env) :
    EventsIn (fun e => e.isDirect = true) (tryHltvApiWithCookies E) := by
  unfold tryHltvApiWithCookies
  refine eventsIn_andThen (eventsIn_emit rfl) fun _ => ?_
  refine eventsIn_tryCatch ?_ fun _ => eventsIn_unit _ _
  refine eventsIn_andThen (httpGet_events (by rfl) _) fun res => ?_
  split
  · exact eventsIn_unit _ _
  · split
    · refine eventsIn_andThen (httpGet_events (by rfl) _)
        fun pageRes => ?_
      split
      · refine eventsIn_andThen (httpGet_events (by rfl) _)
          fun res2 => ?_
        split <;> exact eventsIn_unit _ _
      · exact eventsIn_unit _ _
    · exact eventsIn_unit _ _

theorem proxy_settles (E : Env) : Settles nullOrList (tryProxy E) := by
  unfold tryProxy
  refine settles_andThen (settles_emit _) fun _ _ => ?_
  refine settles_tryCatch ?_ fun _ => settles_unit (Or.inl rfl)
  exact ends_andThen (httpGet_ends _ _) fun res _ => listResponse_ends res

theorem proxy_events (E : Env) : EventsIn (fun e => e.isProxy = true) (tryProxy E) := by
  unfold tryProxy
  refine eventsIn_andThen (eventsIn_emit rfl) fun _ => ?_
  refine eventsIn_tryCatch ?_ fun _ => eventsIn_unit _ _
  refine eventsIn_andThen (httpGet_events (by rfl) _) fun res => ?_
  split <;> exact eventsIn_unit _ _

theorem attempt_ends (E : Env) (op : BrowserOp) : Ends (fun _ => True) (attempt E op) := by
  unfold attempt
  refine ends_andThen (settles_emit _).ends fun _ _ => ?_
  split
  · exact ends_raise _ _
  · exact ends_unit trivial

theorem attempt_events (E : Env) (op : BrowserOp) :
    EventsIn (fun e => e.isBrowser = true) (attempt E op) := by
  unfold attempt
  refine eventsIn_andThen (eventsIn_emit rfl) fun _ => ?_
  split
  · exact eventsIn_raise _ _
  · exact eventsIn_unit _ _

theorem attemptQuietly_ends (E : Env) (op : BrowserOp) :
    Ends (fun _ => True) (attemptQuietly E op) :=
  (settles_tryCatch (attempt_ends E op) fun _ => settles_unit trivial).ends

theorem attemptQuietly_events (E : Env) (op : BrowserOp) :
    EventsIn (fun e => e.isBrowser = true) (attemptQuietly E op) :=
  eventsIn_tryCatch (attempt_events E op) fun _ => eventsIn_unit _ _

theorem awaitEnter_events (E : Env) : EventsIn (fun e => e.isBrowser = true) (awaitEnter E) := by
  unfold awaitEnter
  refine eventsIn_andThen (eventsIn_emit rfl) fun _ => ?_
  split
  · exact eventsIn_unit _ _
  · exact fun _ h => absurd h (List.not_mem_nil _)

theorem awaitEnter_ends (E : Env) (h : E.enterPressed = true) :
    Ends (fun _ => True) (awaitEnter E) := by
  unfold awaitEnter
  refine ends_andThen (settles_emit _).ends fun _ _ => ?_
  rw [h]
  exact ends_unit trivial

theorem browser_events (E : Env) :
    EventsIn (fun e => e.isBrowser = true) (tryPuppeteerScrape E) := by
  unfold tryPuppeteerScrape
  refine eventsIn_andThen (eventsIn_emit rfl) fun _ => ?_
  split
  · exact eventsIn_unit _ _
  · refine eventsIn_tryCatch ?_ fun _ => eventsIn_unit _ _
    refine eventsIn_andThen (attempt_events E _) fun _ => ?_
    refine eventsIn_andThen (attempt_events E _) fun _ => ?_
    refine eventsIn_andThen (attempt_events E _) fun _ => ?_
    refine eventsIn_andThen (attempt_events E _) fun _ => ?_
    refine eventsIn_andThen (attempt_events E _) fun _ => ?_
    refine eventsIn_andThen (attempt_events E _) fun _ => ?_
    refine eventsIn_andThen (attempt_events E _) fun _ => ?_
    refine eventsIn_andThen (attemptQuietly_events E _) fun _ => ?_
    refine eventsIn_andThen (attemptQuietly_events E _) fun _ => ?_
    refine eventsIn_andThen (attempt_events E _) fun _ => ?_
    refine eventsIn_andThen ?_ fun _ => ?_
    · split
      · refine eventsIn_andThen (awaitEnter_events E) fun _ => ?_
        exact eventsIn_andThen (eventsIn_emit rfl) fun _ => attemptQuietly_events E _
      · exact attemptQuietly_events E _
    refine eventsIn_andThen (attempt_events E _) fun _ => ?_
    refine eventsIn_andThen (attempt_events E _) fun _ => ?_
    refine eventsIn_andThen (attemptQuietly_events E _) fun _ => ?_
    refine eventsIn_andThen (attempt_events E _) fun _ => ?_
    exact eventsIn_unit _ _

theorem browser_settles (E : Env)
    (h : challengeDetected E.bodyText = false ∨ E.enterPressed = true) :
    Settles nullOrList (tryPuppeteerScrape E) := by
  unfold tryPuppeteerScrape
  refine settles_andThen (settles_emit _) fun _ _ => ?_
  split
  · exact settles_unit (Or.inl rfl)
  · refine settles_tryCatch ?_ fun _ => settles_unit (Or.inl rfl)
    refine ends_andThen (attempt_ends E _) fun _ _ => ?_
    refine ends_andThen (attempt_ends E _) fun _ _ => ?_
    refine ends_andThen (attempt_ends E _) fun _ _ => ?_
    refine ends_andThen (attempt_ends E _) fun _ _ => ?_
    refine ends_andThen (attempt_ends E _) fun _ _ => ?_
    refine ends_andThen (attempt_ends E _) fun _ _ => ?_
    refine ends_andThen (attempt_ends E _) fun _ _ => ?_
    refine ends_andThen (attemptQuietly_ends E _) fun _ _ => ?_
    refine ends_andThen (attemptQuietly_ends E _) fun _ _ => ?_
    refine ends_andThen (attempt_ends E _) fun _ _ => ?_
    refine ends_andThen (P := fun _ => True) ?_ fun _ _ => ?_
    · cases hc : challengeDetected E.bodyText with
      | false =>
        simp only [Bool.false_eq_true, if_false]
        exact attemptQuietly_ends E _
      | true =>
        simp only [if_true]
        have hp : E.enterPressed = true := by
          rcases h with h | h
          · rw [hc] at h; exact absurd h (by simp)
          · exact h
        refine ends_andThen (awaitEnter_ends E hp) fun _ _ => ?_
        exact ends_andThen (settles_emit _).ends fun _ _ => attemptQuietly_ends E _
    refine ends_andThen (attempt_ends E _) fun _ _ => ?_
    refine ends_andThen (attempt_ends E _) fun _ _ => ?_
    refine ends_andThen (attemptQuietly_ends E _) fun _ _ => ?_
    refine ends_andThen (attempt_ends E _) fun _ _ => ?_
    exact ends_unit (Or.inr ⟨_, rfl⟩)

theorem browser_no_throw (E : Env) (msg : String) :
    (tryPuppeteerScrape E).outcome ≠ .throw msg := by
  unfold tryPuppeteerScrape
  refine andThen_no_throw (fun m h => Outcome.noConfusion h) (fun _ => ?_) msg
  intro msg2
  split
  · exact fun h => Outcome.noConfusion h
  · exact tryCatch_no_throw (fun _ _ h => Outcome.noConfusion h) msg2


/-! ## Lemmas on the orchestrator -/

theorem fetch_direct {E : Env} {xs : List JSVal}
    (h : (tryHltvApiWithCookies E).outcome = .ret (arr xs)) :
    fetchHLTVMatchesRaw E = ⟨.ret (arr xs), (tryHltvApiWithCookies E).events⟩ := by
  unfold fetchHLTVMatchesRaw
  rw [andThen_ret _ h]
  simp [isArray, unit]

theorem fetch_proxy {E : Env} {xs : List JSVal}
    (hd : (tryHltvApiWithCookies E).outcome = .ret null)
    (hp : (tryProxy E).outcome = .ret (arr xs)) :
    fetchHLTVMatchesRaw E =
      ⟨.ret (arr xs), (tryHltvApiWithCookies E).events ++ (tryProxy E).events⟩ := by
  unfold fetchHLTVMatchesRaw
  rw [andThen_ret _ hd]
  simp only [show JSVal.null.isArray = false from rfl, Bool.false_eq_true, if_false]
  rw [andThen_ret _ hp]
  simp [isArray, unit]

theorem fetch_browser {E : Env}
    (hd : (tryHltvApiWithCookies E).outcome = .ret null)
    (hp : (tryProxy E).outcome = .ret null) :
    (fetchHLTVMatchesRaw E).events =
      (tryHltvApiWithCookies E).events ++ (tryProxy E).events ++
        (tryPuppeteerScrape E).events ∧
    (fetchHLTVMatchesRaw E).outcome =
      match (tryPuppeteerScrape E).outcome with
      | .ret v => if v.isArray then .ret v else .ret (arr [])
      | .throw e => .throw e
      | .hang => .hang := by
  unfold fetchHLTVMatchesRaw
  rw [andThen_ret _ hd]
  simp only [show JSVal.null.isArray = false from rfl, Bool.false_eq_true, if_false]
  rw [andThen_ret _ hp]
  simp only [show JSVal.null.isArray = false from rfl, Bool.false_eq_true, if_false]
  cases hb : (tryPuppeteerScrape E).outcome with
  | ret v =>
    rw [andThen_ret _ hb]
    cases hv : v.isArray <;> simp [unit, List.append_assoc, hv]
  | throw e => rw [andThen_throw _ hb]; simp [List.append_assoc]
  | hang => rw [andThen_hang _ hb]; simp [List.append_assoc]

theorem direct_cases (E : Env) :
    (tryHltvApiWithCookies E).outcome = .ret null ∨
      ∃ xs, (tryHltvApiWithCookies E).outcome = .ret (arr xs) := by
  obtain ⟨v, hv, hq | ⟨xs, hq⟩⟩ := direct_settles E
  · exact Or.inl (by rw [hv, hq])
  · exact Or.inr ⟨xs, by rw [hv, hq]⟩

theorem proxy_cases (E : Env) :
    (tryProxy E).outcome = .ret null ∨ ∃ xs, (tryProxy E).outcome = .ret (arr xs) := by
  obtain ⟨v, hv, hq | ⟨xs, hq⟩⟩ := proxy_settles E
  · exact Or.inl (by rw [hv, hq])
  · exact Or.inr ⟨xs, by rw [hv, hq]⟩

theorem not_proxy_of_direct {e : Event} (h : e.isDirect = true) :
    e.isProxy = false ∧ e.isBrowser = false := by
  cases e with
  | enter s => cases s <;> simp [Event.isDirect, Event.isProxy, Event.isBrowser] at h ⊢
  | apiGet c => exact ⟨rfl, rfl⟩
  | pageGet => exact ⟨rfl, rfl⟩
  | proxyGet => simp [Event.isDirect] at h
  | browser op => simp [Event.isDirect] at h

theorem not_browser_of_proxy {e : Event} (h : e.isProxy = true) : e.isBrowser = false := by
  cases e with
  | enter s => cases s <;> simp [Event.isProxy, Event.isBrowser] at h ⊢
  | apiGet c => exact rfl
  | pageGet => exact rfl
  | proxyGet => exact rfl
  | browser op => simp [Event.isProxy] at h

/-- The embedded cookie retry: 403, page request, second API request with the
rebuilt `Cookie` header, and the list it returns ends the run. -/
theorem cookie_retry_trace :
    (fetchHLTVMatchesRaw envCookieRetry).outcome = .ret (arr [scenarioA]) ∧
    (fetchHLTVMatchesRaw envCookieRetry).events =
      [.enter .direct, .apiGet none, .pageGet, .apiGet (some "a=1; b=2")] :=
  ⟨rfl, by decide⟩

/-! ## Claim C4 -/

/-- C4: in `fetchHLTVMatchesRaw` the strategies run in the order Direct API,
Mirror Proxy, Browser Scrape. When Direct API returns a list, that list is
returned unchanged and every action performed is an action of Direct API (no
action of `tryProxy` or `tryPuppeteerScrape`, not even their entry). When
Direct API returns `null` and Mirror Proxy returns a list, that list is
returned unchanged, the actions are those of Direct API followed by those of
Mirror Proxy, and none is an action of `tryPuppeteerScrape`. When both return
`null`, the actions are those of the three strategies in that order and a
list returned by Browser Scrape is returned unchanged. These cases are
exhaustive, and the actions of each strategy are its own. -/
theorem strategies_in_order (E : Env) :
    (∀ xs, (tryHltvApiWithCookies E).outcome = .ret (arr xs) →
      (fetchHLTVMatchesRaw E).outcome = .ret (arr xs) ∧
      (fetchHLTVMatchesRaw E).events = (tryHltvApiWithCookies E).events ∧
      (∀ e ∈ (fetchHLTVMatchesRaw E).events, e.isProxy = false ∧ e.isBrowser = false) ∧
      Event.enter .proxy ∉ (fetchHLTVMatchesRaw E).events ∧
      Event.enter .browser ∉ (fetchHLTVMatchesRaw E).events) ∧
    (∀ xs, (tryHltvApiWithCookies E).outcome = .ret null →
      (tryProxy E).outcome = .ret (arr xs) →
      (fetchHLTVMatchesRaw E).outcome = .ret (arr xs) ∧
      (fetchHLTVMatchesRaw E).events =
        (tryHltvApiWithCookies E).events ++ (tryProxy E).events ∧
      (∀ e ∈ (fetchHLTVMatchesRaw E).events, e.isBrowser = false) ∧
      Event.enter .browser ∉ (fetchHLTVMatchesRaw E).events) ∧
    ((tryHltvApiWithCookies E).outcome = .ret null → (tryProxy E).outcome = .ret null →
      (fetchHLTVMatchesRaw E).events =
        (tryHltvApiWithCookies E).events ++ (tryProxy E).events ++
          (tryPuppeteerScrape E).events ∧
      ∀ xs, (tryPuppeteerScrape E).outcome = .ret (arr xs) →
        (fetchHLTVMatchesRaw E).outcome = .ret (arr xs)) ∧
    ((tryHltvApiWithCookies E).outcome = .ret null ∨
      ∃ xs, (tryHltvApiWithCookies E).outcome = .ret (arr xs)) ∧
    ((tryProxy E).outcome = .ret null ∨ ∃ xs, (tryProxy E).outcome = .ret (arr xs)) ∧
    ((∀ e ∈ (tryHltvApiWithCookies E).events, e.isDirect = true) ∧
      (∀ e ∈ (tryProxy E).events, e.isProxy = true) ∧
      (∀ e ∈ (tryPuppeteerScrape E).events, e.isBrowser = true)) := by
  refine ⟨?_, ?_, ?_, direct_cases E, proxy_cases E,
    ⟨direct_events E, proxy_events E, browser_events E⟩⟩
  · intro xs hd
    rw [fetch_direct hd]
    have hall : ∀ e ∈ (tryHltvApiWithCookies E).events,
        e.isProxy = false ∧ e.isBrowser = false :=
      fun e he => not_proxy_of_direct (direct_events E e he)
    refine ⟨rfl, rfl, hall, ?_, ?_⟩
    · intro hmem
      exact absurd (hall _ hmem).1 (by decide)
    · intro hmem
      exact absurd (hall _ hmem).2 (by decide)
  · intro xs hd hp
    rw [fetch_proxy hd hp]
    have hall : ∀ e ∈ (tryHltvApiWithCookies E).events ++ (tryProxy E).events,
        e.isBrowser = false := by
      intro e he
      rcases List.mem_append.1 he with h | h
      · exact (not_proxy_of_direct (direct_events E e h)).2
      · exact not_browser_of_proxy (proxy_events E e h)
    refine ⟨rfl, rfl, hall, ?_⟩
    intro hmem
    exact absurd (hall _ hmem) (by decide)
  · intro hd hp
    obtain ⟨hev, hout⟩ := fetch_browser hd hp
    refine ⟨hev, ?_⟩
    intro xs hb
    rw [hout, hb]
    rfl

/-- C4, witness: when the API answers with a list at once, that list is
returned and nothing but the one API request happens. -/
theorem strategies_in_order_witness :
    (fetchHLTVMatchesRaw envDirectList).outcome = .ret (arr [scenarioA]) ∧
      (fetchHLTVMatchesRaw envDirectList).events = (tryHltvApiWithCookies envDirectList).events ∧
      (∀ e ∈ (fetchHLTVMatchesRaw envDirectList).events,
        e.isProxy = false ∧ e.isBrowser = false) ∧
      Event.enter .proxy ∉ (fetchHLTVMatchesRaw envDirectList).events ∧
      Event.enter .browser ∉ (fetchHLTVMatchesRaw envDirectList).events :=
  (strategies_in_order envDirectList).1 [scenarioA] rfl

/-! ## Claim C10 -/

theorem direct_no_throw (E : Env) (msg : String) :
    (tryHltvApiWithCookies E).outcome ≠ .throw msg := by
  obtain ⟨v, hv, _⟩ := direct_settles E
  rw [hv]; exact fun h => Outcome.noConfusion h

theorem proxy_no_throw (E : Env) (msg : String) : (tryProxy E).outcome ≠ .throw msg := by
  obtain ⟨v, hv, _⟩ := proxy_settles E
  rw [hv]; exact fun h => Outcome.noConfusion h

theorem fetch_outcome_cases (E : Env) :
    (∃ xs, (fetchHLTVMatchesRaw E).outcome = .ret (arr xs)) ∨
      ((fetchHLTVMatchesRaw E).outcome = .hang ∧ (tryPuppeteerScrape E).outcome = .hang) := by
  rcases direct_cases E with hd | ⟨xs, hd⟩
  · rcases proxy_cases E with hp | ⟨xs, hp⟩
    · obtain ⟨_, hout⟩ := fetch_browser hd hp
      rw [hout]
      cases hb : (tryPuppeteerScrape E).outcome with
      | ret v =>
        cases hv : v.isArray with
        | true =>
          obtain ⟨xs, hx⟩ := (isArray_iff v).1 hv
          subst hx
          exact Or.inl ⟨xs, rfl⟩
        | false => exact Or.inl ⟨[], by simp [hv]⟩
      | throw e => exact absurd hb (browser_no_throw E e)
      | hang => exact Or.inr ⟨rfl, rfl⟩
    · exact Or.inl ⟨xs, by rw [fetch_proxy hd hp]⟩
  · exact Or.inl ⟨xs, by rw [fetch_direct hd]⟩

/-- C10: `fetchHLTVMatchesRaw` never raises. Each strategy ends with a list
or with `null`, a network error or a browser error included, and whenever
the browser strategy ends (it is the only one that can stay pending, on the
wait for the operator) the orchestrator returns a list; a list from Direct
API or Mirror Proxy is returned whatever the browser would do; and when the
three strategies end with `null` the result is the empty list. -/
theorem fetch_never_raises (E : Env) :
    (∀ msg, (fetchHLTVMatchesRaw E).outcome ≠ .throw msg) ∧
    ((tryPuppeteerScrape E).outcome ≠ .hang →
      ∃ xs, (fetchHLTVMatchesRaw E).outcome = .ret (arr xs)) ∧
    ((challengeDetected E.bodyText = false ∨ E.enterPressed = true) →
      (tryPuppeteerScrape E).outcome ≠ .hang) ∧
    (((∃ xs, (tryHltvApiWithCookies E).outcome = .ret (arr xs)) ∨
        (∃ xs, (tryProxy E).outcome = .ret (arr xs))) →
      ∃ xs, (fetchHLTVMatchesRaw E).outcome = .ret (arr xs)) ∧
    ((tryHltvApiWithCookies E).outcome = .ret null → (tryProxy E).outcome = .ret null →
      (tryPuppeteerScrape E).outcome = .ret null →
      (fetchHLTVMatchesRaw E).outcome = .ret (arr [])) ∧
    (∀ msg, E.api = .failure msg → (tryHltvApiWithCookies E).outcome = .ret null) ∧
    (∀ msg, E.proxy = .failure msg → (tryProxy E).outcome = .ret null) ∧
    (∀ msg, E.usePuppeteer = true → E.fails .launch = some msg →
      (tryPuppeteerScrape E).outcome = .ret null) ∧
    (∀ msg, (tryHltvApiWithCookies E).outcome ≠ .throw msg ∧
      (tryProxy E).outcome ≠ .throw msg ∧ (tryPuppeteerScrape E).outcome ≠ .throw msg) := by
  refine ⟨?_, ?_, ?_, ?_, ?_, ?_, ?_, ?_, ?_⟩
  · intro msg
    rcases fetch_outcome_cases E with ⟨xs, h⟩ | ⟨h, _⟩ <;> rw [h] <;>
      exact fun h => Outcome.noConfusion h
  · intro hb
    rcases fetch_outcome_cases E with h | ⟨_, h⟩
    · exact h
    · exact absurd h hb
  · intro h
    obtain ⟨v, hv, _⟩ := browser_settles E h
    rw [hv]; exact fun h => Outcome.noConfusion h
  · rintro (⟨xs, hd⟩ | ⟨xs, hp⟩)
    · exact ⟨xs, by rw [fetch_direct hd]⟩
    · rcases direct_cases E with hd | ⟨ys, hd⟩
      · exact ⟨xs, by rw [fetch_proxy hd hp]⟩
      · exact ⟨ys, by rw [fetch_direct hd]⟩
  · intro hd hp hb
    rw [(fetch_browser hd hp).2, hb]
    rfl
  · intro msg h
    simp [tryHltvApiWithCookies, httpGet, h, Eff.andThen, Eff.tryCatch, emit, raise, unit]
  · intro msg h
    simp [tryProxy, httpGet, h, Eff.andThen, Eff.tryCatch, emit, raise, unit]
  · intro msg hu hl
    cases hr : E.fails .requirePuppeteer <;>
      simp [tryPuppeteerScrape, attempt, hu, hl, hr, Eff.andThen, Eff.tryCatch, emit, raise, unit]
  · exact fun msg => ⟨direct_no_throw E msg, proxy_no_throw E msg, browser_no_throw E msg⟩

/-- C10, witness: when no strategy applies the orchestrator returns the empty
list. -/
theorem fetch_never_raises_witness :
    (fetchHLTVMatchesRaw envNoData).outcome = .ret (arr []) :=
  (fetch_never_raises envNoData).2.2.2.2.1 rfl rfl rfl

/-! ## Claim C6 -/

/-- C6, the failing run: the browser is launched, the evaluation that reads
the page text throws, the `catch` returns `null`, and `browser.close` is not
among the actions performed. -/
theorem browser_left_open :
    (tryPuppeteerScrape envEvaluateThrows).outcome = .ret null ∧
    (tryPuppeteerScrape envEvaluateThrows).events =
      [.enter .browser, .browser .requirePuppeteer, .browser .launch, .browser .newPage,
        .browser .setUserAgent, .browser .setExtraHTTPHeaders,
        .browser .setDefaultNavigationTimeout, .browser .gotoBlank, .browser .loadSession,
        .browser .gotoMatches, .browser .readBodyText] ∧
    Event.browser .launch ∈ (tryPuppeteerScrape envEvaluateThrows).events ∧
    Event.browser .close ∉ (tryPuppeteerScrape envEvaluateThrows).events :=
  ⟨rfl, by decide, by decide, by decide⟩

/-! ## Claim C2 -/

/-- C2, counterexample: the cache holds the match of scenario A; in a refresh
where the three strategies end with `null`, `updateCache` returns normally
and the cache holds three empty lists. -/
theorem failed_refresh_empties_cache :
    populatedState.cache.isEmpty = false ∧
    (tryHltvApiWithCookies envNoData).outcome = .ret null ∧
    (tryProxy envNoData).outcome = .ret null ∧
    (tryPuppeteerScrape envNoData).outcome = .ret null ∧
    (updateCache envNoData (Host.fixed 1700000300000) 1700000300000 populatedState).1.cache.live
      = [] ∧
    (updateCache envNoData (Host.fixed 1700000300000) 1700000300000 populatedState).1.cache.isEmpty
      = true :=
  ⟨rfl, rfl, rfl, rfl, rfl, rfl⟩

/-- C2, amended: a refresh whose `getAll` raises is caught and leaves the
module state, hence the cached snapshot, as it was, and so does a refresh
whose `getAll` is still pending; a refresh in which the three strategies end
with `null` is not a failure for `updateCache`: `getAll` returns the empty
snapshot, and the cache is replaced by three empty lists. -/
theorem updateCache_on_failure (now : Int) (st : ServerState) :
    (∀ (g : Eff Snapshot) (msg : String), g.outcome = .throw msg →
      (updateCacheWith g now st).1 = st ∧ (updateCacheWith g now st).2.outcome = .ret ()) ∧
    (∀ g : Eff Snapshot, g.outcome = .hang → (updateCacheWith g now st).1 = st) ∧
    (∀ (E : Env) (H : Host),
      (tryHltvApiWithCookies E).outcome = .ret null → (tryProxy E).outcome = .ret null →
      (tryPuppeteerScrape E).outcome = .ret null →
      (updateCache E H now st).1.cache.live = [] ∧
      (updateCache E H now st).1.cache.upcoming = [] ∧
      (updateCache E H now st).1.cache.finished = [] ∧
      (updateCache E H now st).1.lastCacheTime = now) := by
  refine ⟨?_, ?_, ?_⟩
  · intro g msg h
    unfold updateCacheWith
    rw [h]
    exact ⟨rfl, rfl⟩
  · intro g h
    unfold updateCacheWith
    rw [h]
  · intro E H hd hp hb
    have hf : (fetchHLTVMatchesRaw E).outcome = .ret (arr []) := by
      rw [(fetch_browser hd hp).2, hb]; rfl
    have hg : (getAll E H).outcome = .ret (normalizeList H []) := by
      unfold getAll
      rw [andThen_ret _ hf]
      rfl
    unfold updateCache updateCacheWith
    rw [hg]
    exact ⟨rfl, rfl, rfl, rfl⟩

/-- C2, witness: a refresh whose `getAll` raises leaves the populated cache
untouched. -/
theorem updateCache_on_failure_witness :
    (updateCacheWith (raise "normalizer failed") 1700000300000 populatedState).1 =
        populatedState ∧
      (updateCacheWith (raise "normalizer failed") 1700000300000 populatedState).2.outcome =
        .ret () :=
  (updateCache_on_failure 1700000300000 populatedState).1 (raise "normalizer failed")
    "normalizer failed" rfl

end HLTV
